import Mathlib

/-!
Verification of the Alpaca data-access layer (SQLite persistence gateway,
TTL cache, statistics / backup / export services) against its
natural-language specification.  Each Python function under scrutiny is
shallowly embedded as an executable Lean definition over explicit list-based
table states; the theorems below settle the spec's claims about them.
-/

namespace Alpaca

/-! ## Relational rows (tables from `sql_manager.py` / `Instance.initialize`) -/

/-- A row of the `chat` table: id (PK), name, folder (nullable), is_template. -/
structure ChatRow where
  id : String
  name : String
  folder : Option String
  is_template : Int
deriving Repr, DecidableEq

/-- A row of the `message` table. -/
structure MessageRow where
  id : String
  chat_id : String
  role : String
  model : String
  date_time : String
  content : String
deriving Repr, DecidableEq

/-- A row of the `attachment` table. -/
structure AttachmentRow where
  id : String
  message_id : String
  type : String
  name : String
  content : String
deriving Repr, DecidableEq

/-- The chat-related portion of the live database. -/
structure Database where
  chat : List ChatRow
  message : List MessageRow
  attachment : List AttachmentRow
deriving Repr, DecidableEq

/-! ## `Instance.delete_chat` (sql_manager.py)

The Python code, under one `SQLiteConnection`:
1. `DELETE FROM chat WHERE id=?`
2. for each `id` in `SELECT id FROM message WHERE chat_id=?`:
   `DELETE FROM attachment WHERE message_id=?`
3. `DELETE FROM message WHERE chat_id=?`
The message-id query in step 2 runs before step 3, so it sees all of the
chat's messages. -/

def delete_chat (db : Database) (cid : String) : Database :=
  let chats' := db.chat.filter (fun c => !(c.id == cid))
  let chatMsgIds := (db.message.filter (fun m => m.chat_id == cid)).map MessageRow.id
  let atts' := db.attachment.filter (fun a => !(chatMsgIds.contains a.message_id))
  let msgs' := db.message.filter (fun m => !(m.chat_id == cid))
  ⟨chats', msgs', atts'⟩

/-! ## `Instance.insert_or_update_chat` (sql_manager.py)

Looks up the chat id; if present, `UPDATE chat SET name, folder, is_template`
from the object; otherwise `INSERT INTO chat (id, name, folder, is_template)
VALUES (?, ?, ?, 0)` — the INSERT path hard-codes `is_template` to `0`.
(The Python source has two branches for `folder_id is None` writing
`NULL` resp. the value; both are the same as storing `folder_id` directly.) -/

/-- The in-memory chat object handed to `insert_or_update_chat`
(`chat_id`, `get_name()`, `folder_id`, `is_template`). -/
structure ChatObj where
  chat_id : String
  name : String
  folder_id : Option String
  is_template : Int
deriving Repr, DecidableEq

def insert_or_update_chat (chat : ChatObj) (db : List ChatRow) : List ChatRow :=
  if (db.find? (fun r => r.id == chat.chat_id)).isSome then
    db.map (fun r =>
      if r.id == chat.chat_id then
        { r with name := chat.name, folder := chat.folder_id,
                 is_template := chat.is_template }
      else r)
  else
    db ++ [⟨chat.chat_id, chat.name, chat.folder_id, 0⟩]

/-! ## TTL cache `ModelInfoCache` (services/model_cache.py)

`_cache` is a Python dict `key ↦ (model_info, timestamp)`; embedded as a
key-unique entry list.  `time.time()` values are modelled as integers; only
their differences are compared against the TTL. -/

structure CacheEntry (α : Type) where
  key : String
  value : α
  timestamp : Int
deriving Repr, DecidableEq

structure ModelInfoCache (α : Type) where
  cache : List (CacheEntry α)
  ttl_seconds : Int
deriving Repr, DecidableEq

/-- Dict read: the entry stored under `k`, if any. -/
def cacheLookup {α : Type} (c : List (CacheEntry α)) (k : String) : Option (α × Int) :=
  (c.find? (fun e => e.key == k)).map (fun e => (e.value, e.timestamp))

/-- `set`: `self._cache[cache_key] = (model_info, time.time())` (dict
assignment replaces any previous binding of the key). -/
def ModelInfoCache.set {α : Type} (c : ModelInfoCache α) (k : String) (v : α)
    (now : Int) : ModelInfoCache α :=
  { c with cache := ⟨k, v, now⟩ :: c.cache.filter (fun e => !(e.key == k)) }

/-- `get`: miss if absent; if `now - timestamp > ttl` delete the entry and
miss; otherwise hit, returning the stored value with no state change. -/
def ModelInfoCache.get {α : Type} (c : ModelInfoCache α) (k : String)
    (now : Int) : Option α × ModelInfoCache α :=
  match c.cache.find? (fun e => e.key == k) with
  | none => (none, c)
  | some e =>
    if now - e.timestamp > c.ttl_seconds then
      (none, { c with cache := c.cache.filter (fun e2 => !(e2.key == k)) })
    else
      (some e.value, c)

/-! ## Statistics service (services/statistics.py)

The `statistics` table is an append-only event log.  Timestamps are the
fixed-width strings `"%Y/%m/%d %H:%M:%S"`, compared by SQLite as plain
strings, so they are embedded as `String` with lexicographic `≤`. -/

/-- A row of the `statistics` table. -/
structure StatRow where
  id : String
  event_type : String
  model : Option String
  tokens_used : Option Int
  response_time_ms : Option Int
  timestamp : String
deriving Repr, DecidableEq

/-- `record_token_usage`: appends one `token_usage` row (the event id and
timestamp are produced by `generate_uuid()` / `datetime.now()`, passed here
as arguments). -/
def record_token_usage (db : List StatRow) (model : String) (tokens_used : Int)
    (event_id ts : String) : List StatRow :=
  db ++ [⟨event_id, "token_usage", some model, some tokens_used, none, ts⟩]

/-- `record_response_time`: appends one `response_time` row. -/
def record_response_time (db : List StatRow) (model : String)
    (response_time_ms : Int) (event_id ts : String) : List StatRow :=
  db ++ [⟨event_id, "response_time", some model, none, some response_time_ms, ts⟩]

/-- Python's `min` on a non-empty list ( `min([])` never occurs: the code
returns early on an empty result set). -/
def pyMin : List Int → Int
  | [] => 0
  | x :: xs => xs.foldl min x

/-- Python's `max` on a non-empty list. -/
def pyMax : List Int → Int
  | [] => 0
  | x :: xs => xs.foldl max x

/-- The shape returned by `get_response_times` (`ResponseTimeStats`).
Python floats are modelled as exact rationals. -/
structure ResponseTimeStats where
  average_ms : ℚ
  min_ms : Int
  max_ms : Int
  median_ms : ℚ
  total_requests : Nat
  model : Option String
deriving Repr, DecidableEq

/-- The rows matched by
`SELECT response_time_ms FROM statistics WHERE event_type = 'response_time'
AND response_time_ms IS NOT NULL [AND model = ?]`. -/
def matchingResponseTimes (db : List StatRow) (model : Option String) : List Int :=
  (db.filter (fun r => r.event_type == "response_time"
      && r.response_time_ms.isSome
      && (match model with | none => true | some m => r.model == some m))).filterMap
    StatRow.response_time_ms

/-- `get_response_times`: the SQL result is ordered by `response_time_ms`
(`ORDER BY`, embedded as a sort), then `min`/`max`/`sum` and the positional
median are computed in Python. -/
def get_response_times (db : List StatRow) (model : Option String) :
    ResponseTimeStats :=
  let response_times := (matchingResponseTimes db model).insertionSort (· ≤ ·)
  if response_times = [] then
    ⟨0, 0, 0, 0, 0, model⟩
  else
    let total_requests := response_times.length
    let average_ms : ℚ := (response_times.sum : ℚ) / (total_requests : ℚ)
    let median_ms : ℚ :=
      if total_requests % 2 = 0 then
        ((response_times.getD (total_requests / 2 - 1) 0 : ℚ)
          + (response_times.getD (total_requests / 2) 0 : ℚ)) / 2
      else (response_times.getD (total_requests / 2) 0 : ℚ)
    ⟨average_ms, pyMin response_times, pyMax response_times, median_ms,
     total_requests, model⟩

/-- The even/odd-count median rule on an (already sorted) value list —
stated from the spec's words, to be compared with what the code computes. -/
def medianOfSorted (l : List Int) : ℚ :=
  if l.length % 2 = 0 then
    ((l.getD (l.length / 2 - 1) 0 : ℚ) + (l.getD (l.length / 2) 0 : ℚ)) / 2
  else (l.getD (l.length / 2) 0 : ℚ)

/-- The shape returned by `get_token_usage` (`TokenUsageStats`); `by_model`
is a Python dict, embedded as an insertion-ordered association list. -/
structure TokenUsageStats where
  total_tokens : Int
  prompt_tokens : Int
  completion_tokens : Int
  period_start : Option String
  period_end : Option String
  by_model : List (String × Int)
deriving Repr, DecidableEq

/-- Python dict assignment `d[k] = v`: overwrite in place, else append. -/
def dictInsert (d : List (String × Int)) (k : String) (v : Int) :
    List (String × Int) :=
  if d.any (fun p => p.1 == k) then
    d.map (fun p => if p.1 == k then (k, v) else p)
  else d ++ [(k, v)]

/-- Python dict read `d[k]`. -/
def dictGet (d : List (String × Int)) (k : String) : Option Int :=
  (d.find? (fun p => p.1 == k)).map Prod.snd

/-- `row[1] or "unknown"`: both SQL `NULL` and the empty string are falsy. -/
def tokenKey : Option String → String
  | none => "unknown"
  | some s => if s = "" then "unknown" else s

/-- Rows matched by `event_type = 'token_usage' AND tokens_used IS NOT NULL`
plus the optional `timestamp >= date_from` / `timestamp <= date_to` window. -/
def matchingTokenRows (db : List StatRow) (date_from date_to : Option String) :
    List StatRow :=
  db.filter (fun r => r.event_type == "token_usage"
      && r.tokens_used.isSome
      && (match date_from with | none => true | some d => decide (d ≤ r.timestamp))
      && (match date_to with | none => true | some d => decide (r.timestamp ≤ d)))

/-- SQL `SUM(tokens_used)` over a row set. -/
def sqlSumTokens (rows : List StatRow) : Int :=
  (rows.filterMap StatRow.tokens_used).sum

/-- `get_token_usage`: `SELECT SUM(tokens_used), model ... GROUP BY model`,
then a Python loop accumulating `total_tokens` and filling the `by_model`
dict; `prompt_tokens` and `completion_tokens` are hard-coded to `0`. -/
def get_token_usage (db : List StatRow) (date_from date_to : Option String) :
    TokenUsageStats :=
  let rows := matchingTokenRows db date_from date_to
  let groups := (rows.map StatRow.model).dedup.map
    (fun m => (sqlSumTokens (rows.filter (fun r => r.model == m)), m))
  let total_tokens := (groups.map Prod.fst).sum
  let by_model := groups.foldl (fun d g => dictInsert d (tokenKey g.2) g.1) []
  ⟨total_tokens, 0, 0, date_from, date_to, by_model⟩

/-! ## Python exceptions

The error classes the data layer raises or catches: `sqlite3.Error` from the
database driver, `OSError` from `os`/`shutil` file operations, `ValueError`
from explicit validation raises. -/

inductive PyErr where
  | sqliteError (msg : String)
  | osError (msg : String)
  | valueError (msg : String)
deriving Repr, DecidableEq

/-! ## `ExportService.export_to_markdown` (services/export.py) -/

/-- Python's `"\n".join(lines)`. -/
def joinLines : List String → String
  | [] => ""
  | [x] => x
  | x :: xs => x ++ "\n" ++ joinLines xs

/-- The lines the message loop appends for one message: the role heading
(with the model name for assistant messages whose `model` is truthy), the
`*timestamp*` line, the raw content, and a `---` separator. -/
def messageBlock (m : MessageRow) : List String :=
  (if m.role = "user" then ["## User"]
   else if m.role = "assistant" then
     (if m.model ≠ "" then ["## Assistant (" ++ m.model ++ ")"]
      else ["## Assistant"])
   else if m.role = "system" then ["## System"]
   else [])
  ++ ["*" ++ m.date_time ++ "*", "", m.content, "", "---", ""]

/-- `export_to_markdown`: raises `ValueError` when the chat id is missing;
otherwise renders `# <chat name>`, a blank line, and the message blocks of
the chat's messages ordered by `date_time` (`ORDER BY date_time ASC`). -/
def export_to_markdown (db : Database) (chat_id : String) :
    Except PyErr String :=
  match db.chat.find? (fun c => c.id == chat_id) with
  | none =>
    .error (.valueError ("Chat with id '" ++ chat_id ++ "' not found"))
  | some chatRow =>
    let messages := (db.message.filter (fun m => m.chat_id == chat_id)).insertionSort
      (fun a b => a.date_time ≤ b.date_time)
    .ok (joinLines (("# " ++ chatRow.name) :: "" ::
      (messages.map messageBlock).flatten))

/-! ## `BackupService.create_backup` (services/backup.py)

The claim under scrutiny is about control flow only: the whole body —
`os.makedirs`/`os.remove` directory preparation, the `sqlite3` connections
and the per-table schema/row copy loop — sits in one `try` whose
`except (sqlite3.Error, OSError)` prints and returns `False`, while the
success path returns `True`.  The body is embedded as the sequence of
primitive `os`/`sqlite3` calls it performs, each tagged with the library it
belongs to and whether it raises (`os` primitives raise `OSError`, `sqlite3`
primitives raise `sqlite3.Error`); the data those calls move is irrelevant
to the claim and not modelled. -/

inductive StorageKind where
  | sqlite
  | osio
deriving Repr, DecidableEq

/-- One primitive call inside `create_backup`'s `try` body. -/
structure CopyStep where
  kind : StorageKind
  fails : Option String
deriving Repr, DecidableEq

/-- The `try` body: run the primitive calls in order; the first failing call
raises its library's exception class. -/
def runCopySteps : List CopyStep → Except PyErr Unit
  | [] => .ok ()
  | s :: rest =>
    match s.fails with
    | some msg =>
      .error (match s.kind with
        | .sqlite => .sqliteError msg
        | .osio => .osError msg)
    | none => runCopySteps rest

/-- `create_backup`: the body wrapped in
`except (sqlite3.Error, OSError): return False`; any other exception class
would escape (`ValueError` is not caught). -/
def create_backup (steps : List CopyStep) : Except PyErr Bool :=
  match runCopySteps steps with
  | .ok () => .ok true
  | .error (.sqliteError _) => .ok false
  | .error (.osError _) => .ok false
  | .error e => .error e

/-! ## `BackupService.restore_backup` with `merge=True` (services/backup.py)

The merge path walks the backup file's tables; for each one it creates the
table locally from the backup schema when missing, reads the backup's column
list, and bulk-inserts the backup rows — with `INSERT OR IGNORE` when the
column list contains `id` (the primary key of every application table),
plain `INSERT` otherwise. -/

/-- A generic SQLite table: name, `CREATE TABLE` sql, column names, rows
(cell values as strings). -/
structure Table where
  name : String
  schema : String
  cols : List String
  rows : List (List String)
deriving Repr, DecidableEq

/-- The value a row holds in the `id` column. -/
def rowIdVal (cols : List String) (row : List String) : Option String :=
  row.get? (cols.indexOf "id")

/-- `INSERT OR IGNORE`: each incoming row is dropped when a row with the
same primary-key value is already present (including rows inserted earlier
in the same batch), appended otherwise. -/
def insertOrIgnore (cols : List String) (existing new : List (List String)) :
    List (List String) :=
  new.foldl (fun acc r =>
    if acc.any (fun e => rowIdVal cols e == rowIdVal cols r) then acc
    else acc ++ [r]) existing

/-- One iteration of the merge loop for one backup table. -/
def mergeTableStep (acc : List Table) (bt : Table) : List Table :=
  match acc.find? (fun t => t.name == bt.name) with
  | none =>
      acc ++ [{ bt with rows := if bt.cols.contains "id"
                                then insertOrIgnore bt.cols [] bt.rows
                                else bt.rows }]
  | some _ =>
      acc.map (fun t =>
        if t.name == bt.name then
          { t with rows := if bt.cols.contains "id"
                           then insertOrIgnore bt.cols t.rows bt.rows
                           else t.rows ++ bt.rows }
        else t)

/-- `restore_backup(path, merge=True)`: merge every backup table into the
live database, in the backup's table order. -/
def restore_backup_merge (live backup : List Table) : List Table :=
  backup.foldl mergeTableStep live

/-! ## `generate_numbered_name` (sql_manager.py)

```
if name in compare_list:
    for i in range(1, len(compare_list) + 1):
        if "." in name:  # try "<stem> <i>.<ext>"
        else:            # try "<name> <i>"
```
The loop starts at `i = 1` and stops at the first candidate that is absent
from `compare_list`; if every candidate collides the name stays unchanged. -/

/-- Python's `name.split('.')`, built structurally over the char list. -/
def splitDotsAux : List Char → List (List Char)
  | [] => [[]]
  | c :: rest =>
    match splitDotsAux rest with
    | [] => [[c]]
    | s :: ss => if c = '.' then [] :: s :: ss else (c :: s) :: ss

def pySplitDot (s : String) : List String :=
  (splitDotsAux s.data).map List.asString

/-- The `i`-th candidate name:
`"{'.'.join(name.split('.')[:-1])} {i}.{name.split('.')[-1]}"` for dotted
names, `"{name} {i}"` otherwise. -/
def numberedCandidate (name : String) (i : Nat) : String :=
  if name.data.contains '.' then
    String.intercalate "." ((pySplitDot name).dropLast) ++ " " ++ toString i
      ++ "." ++ ((pySplitDot name).getLastD "")
  else
    name ++ " " ++ toString i

/-- The `for i in range(1, len(compare_list) + 1)` search. -/
def numberedLoop (name : String) (compare_list : List String) :
    Nat → Nat → String
  | 0, _ => name
  | fuel + 1, i =>
      if numberedCandidate name i ∈ compare_list then
        numberedLoop name compare_list fuel (i + 1)
      else numberedCandidate name i

def generate_numbered_name (name : String) (compare_list : List String) :
    String :=
  if name ∈ compare_list then
    numberedLoop name compare_list compare_list.length 1
  else name

/-! ## `Instance.import_chat` (sql_manager.py)

Four prefetch-then-update passes over the attached import database, then a
bulk insert into the live one:
(0) import chats whose name matches a live chat's name are renamed via
`generate_numbered_name(name, chat_names)`;
(a) import chats whose id matches a live chat id get a fresh
`generate_uuid()` id, cascading into `import.message.chat_id`;
(b) import messages whose id matches a live message id get a fresh id,
cascading into `import.attachment.message_id`;
(c) import attachments whose id matches a live attachment id get a fresh id.
Finally import chats are inserted with
`INSERT INTO chat (id, name, folder) VALUES (?, ?, ?)` — `folder` comes from
the `folder_id` argument and `is_template` falls back to its schema default
`0` — and import messages/attachments are inserted verbatim.
The `generate_uuid()` outputs are passed in as the `fresh` list, consumed in
call order. -/

/-- Pass (0): rename import chats whose name matches a live chat's name. -/
def importPass0 (live imp : Database) (chat_names : List String) : Database :=
  { imp with chat := imp.chat.map (fun ic =>
    if live.chat.any (fun dc => dc.name == ic.name)
    then { ic with name := generate_numbered_name ic.name chat_names }
    else ic) }

/-- The prefetched `import.chat.id JOIN chat` collision list. -/
def chatIdCollisions (live imp0 : Database) : List String :=
  (imp0.chat.filter (fun ic =>
    live.chat.any (fun dc => dc.id == ic.id))).map ChatRow.id

/-- Pass (a): per colliding chat id, `UPDATE import.chat SET id` and
`UPDATE import.message SET chat_id`. -/
def importPass1 (imp0 : Database) (ren1 : List (String × String)) : Database :=
  ren1.foldl (fun acc pr =>
    { acc with
      chat := acc.chat.map (fun c =>
        if c.id == pr.1 then { c with id := pr.2 } else c),
      message := acc.message.map (fun m =>
        if m.chat_id == pr.1 then { m with chat_id := pr.2 } else m) }) imp0

/-- The prefetched `import.message.id JOIN message` collision list. -/
def messageIdCollisions (live imp1 : Database) : List String :=
  (imp1.message.filter (fun im =>
    live.message.any (fun dm => dm.id == im.id))).map MessageRow.id

/-- Pass (b): per colliding message id,
`UPDATE import.attachment SET message_id` and `UPDATE import.message SET id`. -/
def importPass2 (imp1 : Database) (ren2 : List (String × String)) : Database :=
  ren2.foldl (fun acc pr =>
    { acc with
      attachment := acc.attachment.map (fun a =>
        if a.message_id == pr.1 then { a with message_id := pr.2 } else a),
      message := acc.message.map (fun m =>
        if m.id == pr.1 then { m with id := pr.2 } else m) }) imp1

/-- The prefetched `import.attachment.id JOIN attachment` collision list. -/
def attachmentIdCollisions (live imp2 : Database) : List String :=
  (imp2.attachment.filter (fun ia =>
    live.attachment.any (fun da => da.id == ia.id))).map AttachmentRow.id

/-- Pass (c): per colliding attachment id, `UPDATE import.attachment SET id`. -/
def importPass3 (imp2 : Database) (ren3 : List (String × String)) : Database :=
  ren3.foldl (fun acc pr =>
    { acc with attachment := acc.attachment.map (fun a =>
        if a.id == pr.1 then { a with id := pr.2 } else a) }) imp2

/-- The bulk insert: chats with the caller's `folder_id` and the schema
default `is_template = 0`, messages and attachments verbatim. -/
def importInsert (live imp3 : Database) (folder_id : Option String) :
    Database :=
  { live with
    chat := live.chat ++ imp3.chat.map (fun c =>
      { c with folder := folder_id, is_template := 0 }),
    message := live.message ++ imp3.message,
    attachment := live.attachment ++ imp3.attachment }

def import_chat (live imp : Database) (chat_names : List String)
    (folder_id : Option String) (fresh : List String) : Database × Database :=
  let imp0 := importPass0 live imp chat_names
  let imp1 := importPass1 imp0 ((chatIdCollisions live imp0).zip fresh)
  let fresh1 := fresh.drop (chatIdCollisions live imp0).length
  let imp2 := importPass2 imp1 ((messageIdCollisions live imp1).zip fresh1)
  let fresh2 := fresh1.drop (messageIdCollisions live imp1).length
  let imp3 := importPass3 imp2 ((attachmentIdCollisions live imp2).zip fresh2)
  (importInsert live imp3 folder_id, imp3)

/-- The renaming a prefetched list of `(old id, fresh id)` updates performs
on one key. -/
def renOf (pairs : List (String × String)) (k : String) : String :=
  match pairs.find? (fun p => p.1 == k) with
  | some p => p.2
  | none => k

/-! ## Model pinning (`ModelPinningSQL` in tests/test_model_pinning.py)

`pin_model` assigns `MAX(pin_order)+1` within the instance (`(max_order or
0) + 1` — `MAX` of an empty set is `NULL`), refusing duplicates;
`unpin_model` deletes the pin and decrements every `pin_order` above the
removed one for the same instance.  `generate_uuid()` outputs are passed in
as the `pid` argument. -/

structure Pin where
  id : String
  model_name : String
  instance_id : String
  pin_order : Nat
deriving Repr, DecidableEq

def findPin (db : List Pin) (m inst : String) : Option Pin :=
  db.find? (fun p => p.model_name == m && p.instance_id == inst)

/-- The `pin_order` column of one instance's rows
(`SELECT pin_order FROM model_pin WHERE instance_id=?`). -/
def ordersOf (db : List Pin) (inst : String) : List Nat :=
  (db.filter (fun p => p.instance_id == inst)).map Pin.pin_order

def maxPinOrder (db : List Pin) (inst : String) : Nat :=
  (ordersOf db inst).foldl max 0

def pin_model (db : List Pin) (pid m inst : String) : List Pin × String :=
  match findPin db m inst with
  | some p => (db, p.id)
  | none => (db ++ [⟨pid, m, inst, maxPinOrder db inst + 1⟩], pid)

def unpin_model (db : List Pin) (m inst : String) : List Pin × Bool :=
  match findPin db m inst with
  | none => (db, false)
  | some p =>
    ((db.filter (fun q => !(q.model_name == m && q.instance_id == inst))).map
      (fun q =>
        if q.instance_id == inst && decide (p.pin_order < q.pin_order)
        then { q with pin_order := q.pin_order - 1 } else q), true)

/-- The states of the `model_pin` table reachable from an empty table by
`pin_model` / `unpin_model` calls. -/
inductive Reachable : List Pin → Prop where
  | init : Reachable []
  | pin (db : List Pin) (pid m inst : String) : Reachable db →
      Reachable (pin_model db pid m inst).1
  | unpin (db : List Pin) (m inst : String) : Reachable db →
      Reachable (unpin_model db m inst).1

/-- At most one pin per `(model_name, instance_id)` pair. -/
def KeysNodup (db : List Pin) : Prop :=
  (db.map (fun p => (p.model_name, p.instance_id))).Nodup

end Alpaca

namespace Alpaca

/-! ## Theorems -/

/-- C2: after `delete_chat` no chat row with the deleted id, no message row of
that chat, and no attachment of any of that chat's messages remains; chat,
message and attachment rows belonging to other chats survive unchanged. -/
theorem delete_chat_cascades (db : Database) (cid : String) :
    ((delete_chat db cid).chat.find? (fun c => c.id == cid) = none) ∧
    (∀ m ∈ (delete_chat db cid).message, m.chat_id ≠ cid) ∧
    (∀ a ∈ (delete_chat db cid).attachment, ∀ m ∈ db.message,
        m.chat_id = cid → a.message_id ≠ m.id) ∧
    (∀ c ∈ db.chat, c.id ≠ cid → c ∈ (delete_chat db cid).chat) ∧
    (∀ m ∈ db.message, m.chat_id ≠ cid → m ∈ (delete_chat db cid).message) ∧
    (∀ a ∈ db.attachment,
        (∀ m ∈ db.message, m.chat_id = cid → a.message_id ≠ m.id) →
        a ∈ (delete_chat db cid).attachment) := by
  refine ⟨?_, ?_, ?_, ?_, ?_, ?_⟩
  · rw [List.find?_eq_none]
    intro c hc
    simp only [delete_chat, List.mem_filter, Bool.not_eq_true', beq_eq_false_iff_ne] at hc
    simp [hc.2]
  · intro m hm
    simp only [delete_chat, List.mem_filter, Bool.not_eq_true', beq_eq_false_iff_ne] at hm
    exact hm.2
  · intro a ha m hm hmc
    simp only [delete_chat, List.mem_filter, Bool.not_eq_true'] at ha
    have h2 := ha.2
    rw [Bool.eq_false_iff] at h2
    intro hEq
    apply h2
    rw [List.contains_iff_exists_mem_beq]
    refine ⟨m.id, ?_, by simp [hEq]⟩
    exact List.mem_map_of_mem MessageRow.id (by simp [List.mem_filter, hm, hmc])
  · intro c hc hne
    simp [delete_chat, List.mem_filter, hc, hne]
  · intro m hm hne
    simp [delete_chat, List.mem_filter, hm, hne]
  · intro a ha hno
    simp only [delete_chat, List.mem_filter]
    refine ⟨ha, ?_⟩
    rw [Bool.not_eq_true', Bool.eq_false_iff]
    intro hcon
    rw [List.contains_iff_exists_mem_beq] at hcon
    obtain ⟨x, hx, hbeq⟩ := hcon
    rw [List.mem_map] at hx
    obtain ⟨m, hm, hmid⟩ := hx
    rw [List.mem_filter] at hm
    have : a.message_id = m.id := by
      rw [hmid]; exact eq_of_beq hbeq
    exact hno m hm.1 (by simpa using hm.2) this

/-- C2 witness: the cascade theorem evaluated on a concrete two-chat
database. -/
theorem delete_chat_cascades_witness :
    let db : Database :=
      ⟨[⟨"c1", "A", none, 0⟩, ⟨"c2", "B", none, 0⟩],
       [⟨"m1", "c1", "user", "", "2024/01/01 00:00:00", "hi"⟩,
        ⟨"m2", "c2", "user", "", "2024/01/01 00:00:01", "yo"⟩],
       [⟨"a1", "m1", "plain_text", "f", "x"⟩, ⟨"a2", "m2", "plain_text", "g", "y"⟩]⟩
    (∀ m ∈ (delete_chat db "c1").message, m.chat_id ≠ "c1") ∧
    (∀ a ∈ db.attachment,
        (∀ m ∈ db.message, m.chat_id = "c1" → a.message_id ≠ m.id) →
        a ∈ (delete_chat db "c1").attachment) := by
  intro db
  exact ⟨(delete_chat_cascades db "c1").2.1,
         (delete_chat_cascades db "c1").2.2.2.2.2⟩

/-- C10: when the chat id is absent from the table, `insert_or_update_chat`
inserts the row with `is_template = 0` regardless of the object's flag; only
saving the same id again (the UPDATE path) persists the object's
`is_template`. -/
theorem insert_or_update_chat_template_zero (chat : ChatObj) (db : List ChatRow)
    (h : ∀ r ∈ db, r.id ≠ chat.chat_id) :
    (insert_or_update_chat chat db
        = db ++ [⟨chat.chat_id, chat.name, chat.folder_id, 0⟩]) ∧
    ((insert_or_update_chat chat (insert_or_update_chat chat db)).find?
        (fun r => r.id == chat.chat_id)
      = some ⟨chat.chat_id, chat.name, chat.folder_id, chat.is_template⟩) := by
  have hfind : db.find? (fun r => r.id == chat.chat_id) = none := by
    rw [List.find?_eq_none]
    intro r hr
    simpa using h r hr
  have hins : insert_or_update_chat chat db
      = db ++ [⟨chat.chat_id, chat.name, chat.folder_id, 0⟩] := by
    rw [insert_or_update_chat, hfind]
    simp
  refine ⟨hins, ?_⟩
  rw [hins]
  have hfound : ((db ++ [ChatRow.mk chat.chat_id chat.name chat.folder_id 0]).find?
      (fun r => r.id == chat.chat_id)).isSome := by
    rw [List.find?_append, hfind]
    simp [List.find?]
  rw [insert_or_update_chat, if_pos hfound, List.map_append, List.find?_append]
  have h1 : (db.map (fun r =>
      if r.id == chat.chat_id then
        { r with name := chat.name, folder := chat.folder_id,
                 is_template := chat.is_template }
      else r)).find? (fun r => r.id == chat.chat_id) = none := by
    rw [List.find?_eq_none]
    intro r hr
    rw [List.mem_map] at hr
    obtain ⟨x, hx, hfx⟩ := hr
    have hxid : x.id ≠ chat.chat_id := h x hx
    rw [if_neg (by simpa using hxid)] at hfx
    subst hfx
    simpa using hxid
  rw [h1]
  simp [List.find?]

/-- C10 witness: inserting a chat object whose `is_template` flag is `1` into
an empty table stores `0`; saving it again stores `1`. -/
theorem insert_or_update_chat_template_zero_witness :
    let chat : ChatObj := ⟨"c1", "New Chat", none, 1⟩
    (insert_or_update_chat chat [] = [⟨"c1", "New Chat", none, 0⟩]) ∧
    ((insert_or_update_chat chat (insert_or_update_chat chat [])).find?
        (fun r => r.id == "c1")
      = some ⟨"c1", "New Chat", none, 1⟩) := by
  intro chat
  exact insert_or_update_chat_template_zero chat [] (by simp)

/-- C4: `set` stores `(value, now)`; a later `get` returns the value
unchanged (and leaves the cache, hence the insertion time, untouched) when
`now' - now ≤ ttl`, and otherwise returns `none` and deletes the entry. -/
theorem model_cache_ttl {α : Type} (c : ModelInfoCache α) (k : String) (v : α)
    (now now' : Int) :
    (cacheLookup (c.set k v now).cache k = some (v, now)) ∧
    (now' - now ≤ c.ttl_seconds →
      (c.set k v now).get k now' = (some v, c.set k v now)) ∧
    (now' - now > c.ttl_seconds →
      ((c.set k v now).get k now').1 = none ∧
      cacheLookup ((c.set k v now).get k now').2.cache k = none) := by
  have hfind : (c.set k v now).cache.find? (fun e => e.key == k)
      = some ⟨k, v, now⟩ := by
    simp [ModelInfoCache.set, List.find?]
  refine ⟨?_, ?_, ?_⟩
  · rw [cacheLookup, hfind]; rfl
  · intro hle
    rw [ModelInfoCache.get, hfind]
    simp only
    rw [if_neg (by simpa using not_lt.mpr hle)]
  · intro hgt
    rw [ModelInfoCache.get, hfind]
    simp only
    rw [if_pos (by simpa using hgt)]
    refine ⟨rfl, ?_⟩
    rw [cacheLookup, List.find?_eq_none.mpr ?_]
    · rfl
    · intro e he
      rw [List.mem_filter] at he
      simpa using he.2

/-- `foldl min` lands on its seed or on a list element. -/
theorem foldl_min_mem {α : Type} [LinearOrder α] (xs : List α) (a : α) :
    xs.foldl min a = a ∨ xs.foldl min a ∈ xs := by
  induction xs generalizing a with
  | nil => exact Or.inl rfl
  | cons x xs ih =>
    rcases ih (min a x) with h | h
    · rcases min_choice a x with hm | hm
      · exact Or.inl (by rw [List.foldl_cons, h, hm])
      · exact Or.inr (by rw [List.foldl_cons, h, hm]; exact List.mem_cons_self _ _)
    · exact Or.inr (List.mem_cons_of_mem _ h)

/-- `foldl min` is a lower bound of its seed and all list elements. -/
theorem foldl_min_le {α : Type} [LinearOrder α] (xs : List α) (a : α) :
    xs.foldl min a ≤ a ∧ ∀ x ∈ xs, xs.foldl min a ≤ x := by
  induction xs generalizing a with
  | nil => exact ⟨le_refl a, by simp⟩
  | cons y ys ih =>
    obtain ⟨h1, h2⟩ := ih (min a y)
    refine ⟨le_trans h1 (min_le_left a y), ?_⟩
    intro x hx
    rcases List.mem_cons.mp hx with rfl | hx'
    · exact le_trans h1 (min_le_right a x)
    · exact h2 x hx'

/-- `foldl max` lands on its seed or on a list element. -/
theorem foldl_max_mem {α : Type} [LinearOrder α] (xs : List α) (a : α) :
    xs.foldl max a = a ∨ xs.foldl max a ∈ xs := by
  induction xs generalizing a with
  | nil => exact Or.inl rfl
  | cons x xs ih =>
    rcases ih (max a x) with h | h
    · rcases max_choice a x with hm | hm
      · exact Or.inl (by rw [List.foldl_cons, h, hm])
      · exact Or.inr (by rw [List.foldl_cons, h, hm]; exact List.mem_cons_self _ _)
    · exact Or.inr (List.mem_cons_of_mem _ h)

/-- `foldl max` is an upper bound of its seed and all list elements. -/
theorem foldl_max_le {α : Type} [LinearOrder α] (xs : List α) (a : α) :
    a ≤ xs.foldl max a ∧ ∀ x ∈ xs, x ≤ xs.foldl max a := by
  induction xs generalizing a with
  | nil => exact ⟨le_refl a, by simp⟩
  | cons y ys ih =>
    obtain ⟨h1, h2⟩ := ih (max a y)
    refine ⟨le_trans (le_max_left a y) h1, ?_⟩
    intro x hx
    rcases List.mem_cons.mp hx with rfl | hx'
    · exact le_trans (le_max_right a x) h1
    · exact h2 x hx'

/-- `pyMin` of a nonempty list is a member and a lower bound. -/
theorem pyMin_spec (l : List Int) (h : l ≠ []) :
    pyMin l ∈ l ∧ ∀ x ∈ l, pyMin l ≤ x := by
  match l, h with
  | x :: xs, _ =>
    constructor
    · rcases foldl_min_mem xs x with h1 | h1
      · rw [pyMin, h1]; exact List.mem_cons_self _ _
      · exact List.mem_cons_of_mem _ (by rw [pyMin]; exact h1)
    · intro y hy
      rcases List.mem_cons.mp hy with rfl | hy'
      · exact (foldl_min_le xs y).1
      · exact (foldl_min_le xs x).2 y hy'

/-- `pyMax` of a nonempty list is a member and an upper bound. -/
theorem pyMax_spec (l : List Int) (h : l ≠ []) :
    pyMax l ∈ l ∧ ∀ x ∈ l, x ≤ pyMax l := by
  match l, h with
  | x :: xs, _ =>
    constructor
    · rcases foldl_max_mem xs x with h1 | h1
      · rw [pyMax, h1]; exact List.mem_cons_self _ _
      · exact List.mem_cons_of_mem _ (by rw [pyMax]; exact h1)
    · intro y hy
      rcases List.mem_cons.mp hy with rfl | hy'
      · exact (foldl_max_le xs y).1
      · exact (foldl_max_le xs x).2 y hy'

/-- C6: `get_response_times` returns all-zero statistics on an empty match
set, and otherwise the count, the exact average, the minimum and maximum of
the matching values, and the standard even/odd median of any sorted
rearrangement of them. -/
theorem get_response_times_spec (db : List StatRow) (model : Option String) :
    (matchingResponseTimes db model = [] →
      get_response_times db model = ⟨0, 0, 0, 0, 0, model⟩) ∧
    (matchingResponseTimes db model ≠ [] →
      (get_response_times db model).total_requests
          = (matchingResponseTimes db model).length ∧
      (get_response_times db model).average_ms
          = ((matchingResponseTimes db model).sum : ℚ)
              / ((matchingResponseTimes db model).length : ℚ) ∧
      ((get_response_times db model).min_ms ∈ matchingResponseTimes db model ∧
        ∀ x ∈ matchingResponseTimes db model,
          (get_response_times db model).min_ms ≤ x) ∧
      ((get_response_times db model).max_ms ∈ matchingResponseTimes db model ∧
        ∀ x ∈ matchingResponseTimes db model,
          x ≤ (get_response_times db model).max_ms) ∧
      (∀ s : List Int, s.Perm (matchingResponseTimes db model) →
        s.Sorted (· ≤ ·) →
        (get_response_times db model).median_ms = medianOfSorted s)) := by
  set vals := matchingResponseTimes db model with hvals
  have hperm : (vals.insertionSort (· ≤ ·)).Perm vals := List.perm_insertionSort _ _
  have hsorted : (vals.insertionSort (· ≤ ·)).Sorted (· ≤ ·) :=
    List.sorted_insertionSort _ _
  constructor
  · intro h
    rw [get_response_times, ← hvals, h]
    rfl
  · intro h
    have hne : vals.insertionSort (· ≤ ·) ≠ [] := by
      intro hcon
      apply h
      have hlen0 := hperm.length_eq
      rw [hcon] at hlen0
      exact List.length_eq_zero.mp hlen0.symm
    have hlen : (vals.insertionSort (· ≤ ·)).length = vals.length :=
      hperm.length_eq
    rw [get_response_times, ← hvals]
    simp only [if_neg hne]
    refine ⟨hlen, ?_, ?_, ?_, ?_⟩
    · rw [hperm.sum_eq, hlen]
    · obtain ⟨hmem, hle⟩ := pyMin_spec _ hne
      exact ⟨hperm.mem_iff.mp hmem, fun x hx => hle x (hperm.mem_iff.mpr hx)⟩
    · obtain ⟨hmem, hle⟩ := pyMax_spec _ hne
      exact ⟨hperm.mem_iff.mp hmem, fun x hx => hle x (hperm.mem_iff.mpr hx)⟩
    · intro s hsperm hssorted
      have hseq : s = vals.insertionSort (· ≤ ·) :=
        List.eq_of_perm_of_sorted (hsperm.trans hperm.symm) hssorted hsorted
      rw [hseq, medianOfSorted]

/-- C6 witness: on recorded times `[1000, 1500, 2000]` ms the statistics are
`min = 1000`, `max = 2000`, `average = 1500`, `median = 1500`. -/
theorem get_response_times_spec_witness :
    let db := record_response_time (record_response_time (record_response_time
      [] "m1" 1000 "e1" "2024/01/01 00:00:00") "m1" 1500 "e2" "2024/01/01 00:00:01")
      "m1" 2000 "e3" "2024/01/01 00:00:02"
    matchingResponseTimes db none ≠ [] ∧
    (get_response_times db none).min_ms = 1000 ∧
    (get_response_times db none).max_ms = 2000 ∧
    (get_response_times db none).average_ms = 1500 ∧
    (get_response_times db none).median_ms = 1500 := by
  intro db
  have hvals : matchingResponseTimes db none = [1000, 1500, 2000] := by decide
  have hne : matchingResponseTimes db none ≠ [] := by rw [hvals]; decide
  obtain ⟨hcount, havg, hmin, hmax, hmed⟩ :=
    (get_response_times_spec db none).2 hne
  refine ⟨hne, ?_, ?_, ?_, ?_⟩
  · have h1 := hmin.1
    have h2 := hmin.2 1000 (by rw [hvals]; decide)
    rw [hvals] at h1
    simp only [List.mem_cons, List.not_mem_nil, or_false] at h1
    rcases h1 with h | h | h <;> omega
  · have h1 := hmax.1
    have h2 := hmax.2 2000 (by rw [hvals]; decide)
    rw [hvals] at h1
    simp only [List.mem_cons, List.not_mem_nil, or_false] at h1
    rcases h1 with h | h | h <;> omega
  · rw [havg, hvals]
    norm_num
  · rw [hmed [1000, 1500, 2000] (by rw [hvals]) (by decide)]
    rw [medianOfSorted]
    norm_num

/-- Summing an `if`-singleton over a duplicate-free key list that contains
the key picks out exactly that key's contribution. -/
theorem sum_map_ite_single {β : Type} [BEq β] [LawfulBEq β] (K : List β)
    (b0 : β) (c : Int) (hnd : K.Nodup) (hb : b0 ∈ K) :
    (K.map (fun b => if b0 == b then c else 0)).sum = c := by
  induction K with
  | nil => cases hb
  | cons k ks ih =>
    rcases List.mem_cons.mp hb with rfl | hb'
    · simp only [List.map_cons, List.sum_cons, beq_self_eq_true, if_true]
      have hz : (ks.map (fun b => if b0 == b then c else 0)).sum = 0 := by
        apply List.sum_eq_zero
        intro x hx
        rw [List.mem_map] at hx
        obtain ⟨b, hbks, hxb⟩ := hx
        have hne : b0 ≠ b := fun h => (List.nodup_cons.mp hnd).1 (h ▸ hbks)
        rw [← hxb, if_neg (by simpa using hne)]
      rw [hz, add_zero]
    · have hne : b0 ≠ k := fun h => (List.nodup_cons.mp hnd).1 (h ▸ hb')
      simp only [List.map_cons, List.sum_cons]
      rw [if_neg (by simpa using hne), ih (List.nodup_cons.mp hnd).2 hb', zero_add]

/-- Pointwise addition under a mapped sum splits. -/
theorem sum_map_add {β : Type} (K : List β) (f g : β → Int) :
    (K.map (fun b => f b + g b)).sum = (K.map f).sum + (K.map g).sum := by
  induction K with
  | nil => rfl
  | cons k ks ih => simp only [List.map_cons, List.sum_cons, ih]; ring

/-- Grouping a list by key and summing the groups equals summing the list,
for any duplicate-free key list covering all keys that occur. -/
theorem sum_map_filter_key {α β : Type} [BEq β] [LawfulBEq β] (f : α → Int)
    (key : α → β) (l : List α) (K : List β) (hnd : K.Nodup)
    (hK : ∀ a ∈ l, key a ∈ K) :
    (K.map (fun b => ((l.filter (fun a => key a == b)).map f).sum)).sum
      = (l.map f).sum := by
  induction l with
  | nil => simp
  | cons x xs ih =>
    have hx : key x ∈ K := hK x (List.mem_cons_self _ _)
    have hxs : ∀ a ∈ xs, key a ∈ K := fun a ha => hK a (List.mem_cons_of_mem _ ha)
    have hsplit : ∀ b : β, ((x :: xs).filter (fun a => key a == b)).map f
        = (if key x == b then [f x] else [])
            ++ (xs.filter (fun a => key a == b)).map f := by
      intro b
      by_cases hb : key x = b
      · simp [List.filter_cons, hb]
      · simp [List.filter_cons, hb]
    have hstep : (K.map (fun b =>
        ((x :: xs).filter (fun a => key a == b)).map f |>.sum)).sum
        = (K.map (fun b => (if key x == b then f x else 0)
            + ((xs.filter (fun a => key a == b)).map f).sum)).sum := by
      congr 1
      apply List.map_congr_left
      intro b _
      rw [hsplit b]
      by_cases hb : key x = b
      · simp [hb]
      · simp [hb]
    rw [hstep, sum_map_add, sum_map_ite_single K (key x) (f x) hnd hx,
        ih hxs, List.map_cons, List.sum_cons]

/-- `SUM(tokens_used)` as a plain mapped sum (`NULL` contributes zero; the
rows fed to it are filtered to non-`NULL` anyway). -/
theorem sqlSumTokens_eq_map (l : List StatRow) :
    sqlSumTokens l = (l.map (fun r => r.tokens_used.getD 0)).sum := by
  induction l with
  | nil => rfl
  | cons x xs ih =>
    rw [sqlSumTokens] at ih ⊢
    cases hx : x.tokens_used <;>
      simp [List.filterMap_cons, hx, ih]

/-- An overwrite rebinding key `k` does not disturb reads of any other key. -/
theorem dictGet_map_ne (ps : List (String × Int)) (k k' : String) (v : Int)
    (h : k' ≠ k) :
    dictGet (ps.map (fun p => if p.1 == k then (k, v) else p)) k'
      = dictGet ps k' := by
  induction ps with
  | nil => rfl
  | cons q qs ih =>
    rw [List.map_cons]
    by_cases hq : q.1 = k
    · rw [show (if q.1 == k then (k, v) else q) = (k, v) by simp [hq]]
      rw [dictGet, List.find?_cons_of_neg _ (by simpa using fun hh => h hh.symm),
          dictGet, List.find?_cons_of_neg _ (by simpa [hq] using fun hh => h hh.symm)]
      exact ih
    · rw [show (if q.1 == k then (k, v) else q) = q by simp [hq]]
      by_cases hq' : q.1 = k'
      · rw [dictGet, List.find?_cons_of_pos _ (by simpa using hq'),
            dictGet, List.find?_cons_of_pos _ (by simpa using hq')]
      · rw [dictGet, List.find?_cons_of_neg _ (by simpa using hq'),
            dictGet, List.find?_cons_of_neg _ (by simpa using hq')]
        exact ih

/-- An overwrite rebinding a key that is present reads back the new value. -/
theorem dictGet_map_eq (ps : List (String × Int)) (k : String) (v : Int)
    (hin : ps.any (fun p => p.1 == k) = true) :
    dictGet (ps.map (fun p => if p.1 == k then (k, v) else p)) k = some v := by
  induction ps with
  | nil => cases hin
  | cons q qs ih =>
    rw [List.map_cons]
    by_cases hq : q.1 = k
    · rw [show (if q.1 == k then (k, v) else q) = (k, v) by simp [hq]]
      rw [dictGet, List.find?_cons_of_pos _ (by simp)]
      rfl
    · rw [show (if q.1 == k then (k, v) else q) = q by simp [hq]]
      rw [dictGet, List.find?_cons_of_neg _ (by simpa using hq)]
      apply ih
      rw [List.any_cons] at hin
      rcases (Bool.or_eq_true _ _).mp hin with h1 | h1
      · exact absurd (by simpa using h1) hq
      · exact h1

/-- `dictGet` after `dictInsert`: the inserted key reads back the new value,
every other key is untouched. -/
theorem dictGet_insert (d : List (String × Int)) (k k' : String) (v : Int) :
    dictGet (dictInsert d k v) k' = if k' = k then some v else dictGet d k' := by
  rw [dictInsert]
  by_cases hany : d.any (fun p => p.1 == k)
  · rw [if_pos hany]
    by_cases h : k' = k
    · subst h
      rw [if_pos rfl]
      exact dictGet_map_eq d k' v hany
    · rw [if_neg h]
      exact dictGet_map_ne d k k' v h
  · rw [if_neg hany]
    have hnone : d.find? (fun p => p.1 == k) = none := by
      rw [List.find?_eq_none]
      intro p hp hcon
      exact hany (List.any_eq_true.mpr ⟨p, hp, hcon⟩)
    by_cases h : k' = k
    · subst h
      rw [dictGet, List.find?_append, hnone]
      simp [List.find?]
    · rw [dictGet, List.find?_append, dictGet,
          List.find?_cons_of_neg _ (by simpa using fun hh => h hh.symm)]
      rw [show (List.find? (fun p : String × Int => p.1 == k')
            ([] : List (String × Int))) = none from rfl,
          Option.or_none, if_neg h]

/-- Folding `dictInsert` over group rows none of which carries the key `m`
leaves `m`'s binding alone; a row that does carry `m` must rebind `g0.1`. -/
theorem dictGet_foldl_stable (gs : List (Int × Option String))
    (d : List (String × Int)) (m : String) (w : Int)
    (hd : dictGet d m = some w)
    (hgs : ∀ g ∈ gs, tokenKey g.2 = m → g.1 = w) :
    dictGet (gs.foldl (fun d g => dictInsert d (tokenKey g.2) g.1) d) m
      = some w := by
  induction gs generalizing d with
  | nil => exact hd
  | cons g gs' ih =>
    rw [List.foldl_cons]
    apply ih
    · rw [dictGet_insert]
      by_cases h : m = tokenKey g.2
      · rw [if_pos h, hgs g (List.mem_cons_self _ _) h.symm]
      · rw [if_neg h]; exact hd
    · exact fun g' hg' => hgs g' (List.mem_cons_of_mem _ hg')

/-- Folding `dictInsert` over group rows of which exactly one carries the key
`m` binds `m` to that row's value. -/
theorem dictGet_foldl_unique (gs : List (Int × Option String))
    (d : List (String × Int)) (m : String) (g0 : Int × Option String)
    (hmem : g0 ∈ gs) (hkey : tokenKey g0.2 = m)
    (huniq : ∀ g ∈ gs, tokenKey g.2 = m → g = g0) :
    dictGet (gs.foldl (fun d g => dictInsert d (tokenKey g.2) g.1) d) m
      = some g0.1 := by
  induction gs generalizing d with
  | nil => cases hmem
  | cons g gs' ih =>
    rw [List.foldl_cons]
    by_cases h : tokenKey g.2 = m
    · apply dictGet_foldl_stable
      · rw [dictGet_insert, if_pos h.symm,
            huniq g (List.mem_cons_self _ _) h]
      · intro g' hg' hkey'
        rw [huniq g' (List.mem_cons_of_mem _ hg') hkey']
    · have hg0 : g0 ∈ gs' := by
        rcases List.mem_cons.mp hmem with rfl | hmem'
        · exact absurd hkey h
        · exact hmem'
      exact ih _ hg0 (fun g' hg' hk => huniq g' (List.mem_cons_of_mem _ hg') hk)

/-- C7: `get_token_usage` totals `tokens_used` over the matching rows, maps
each (nonempty, non-sentinel) model name to the sum over its own rows, and
always reports zero prompt/completion tokens. -/
theorem get_token_usage_spec (db : List StatRow) (date_from date_to : Option String) :
    ((get_token_usage db date_from date_to).total_tokens
        = sqlSumTokens (matchingTokenRows db date_from date_to)) ∧
    ((get_token_usage db date_from date_to).prompt_tokens = 0) ∧
    ((get_token_usage db date_from date_to).completion_tokens = 0) ∧
    (∀ m : String, m ≠ "" → m ≠ "unknown" →
      (∃ r ∈ matchingTokenRows db date_from date_to, r.model = some m) →
      dictGet (get_token_usage db date_from date_to).by_model m
        = some (sqlSumTokens ((matchingTokenRows db date_from date_to).filter
            (fun r => r.model == some m)))) := by
  set rows := matchingTokenRows db date_from date_to with hrows
  refine ⟨?_, rfl, rfl, ?_⟩
  · show ((((rows.map StatRow.model).dedup.map
        (fun m => (sqlSumTokens (rows.filter (fun r => r.model == m)), m))).map
          Prod.fst).sum) = sqlSumTokens rows
    rw [List.map_map]
    have hcomp : (Prod.fst ∘ fun m =>
        (sqlSumTokens (rows.filter (fun r => r.model == m)), m))
        = fun m => sqlSumTokens (rows.filter (fun r => r.model == m)) := rfl
    rw [hcomp, sqlSumTokens_eq_map]
    have hinner : ∀ m, sqlSumTokens (rows.filter (fun r => r.model == m))
        = ((rows.filter (fun r => r.model == m)).map
            (fun r => r.tokens_used.getD 0)).sum := fun m => sqlSumTokens_eq_map _
    calc ((rows.map StatRow.model).dedup.map
          (fun m => sqlSumTokens (rows.filter (fun r => r.model == m)))).sum
        = ((rows.map StatRow.model).dedup.map
          (fun m => ((rows.filter (fun r => r.model == m)).map
            (fun r => r.tokens_used.getD 0)).sum)).sum := by
          congr 1; exact List.map_congr_left (fun m _ => hinner m)
      _ = (rows.map (fun r => r.tokens_used.getD 0)).sum := by
          apply sum_map_filter_key
          · exact List.nodup_dedup _
          · intro r hr
            exact List.mem_dedup.mpr (List.mem_map_of_mem StatRow.model hr)
  · intro m hm1 hm2 ⟨r0, hr0, hr0m⟩
    show dictGet (((rows.map StatRow.model).dedup.map
        (fun mk => (sqlSumTokens (rows.filter (fun r => r.model == mk)), mk))).foldl
          (fun d g => dictInsert d (tokenKey g.2) g.1) []) m = _
    apply dictGet_foldl_unique _ _ _
      (sqlSumTokens (rows.filter (fun r => r.model == some m)), some m)
    · apply List.mem_map_of_mem
      exact List.mem_dedup.mpr (hr0m ▸ List.mem_map_of_mem StatRow.model hr0)
    · show tokenKey (some m) = m
      rw [tokenKey, if_neg hm1]
    · intro g hg hkey
      rw [List.mem_map] at hg
      obtain ⟨mk, _, hgmk⟩ := hg
      have hmk : mk = some m := by
        have : tokenKey mk = m := by rw [← hgmk] at hkey; exact hkey
        match mk with
        | none => exact absurd this.symm hm2
        | some s =>
          rw [tokenKey] at this
          by_cases hs : s = ""
          · rw [if_pos hs] at this; exact absurd this.symm hm2
          · rw [if_neg hs] at this; rw [this]
      rw [← hgmk, hmk]

/-- C7 witness: recording `("m1", 100)` then `("m1", 150)` yields
`total_tokens = 250` and `by_model["m1"] = 250`. -/
theorem get_token_usage_spec_witness :
    let db := record_token_usage (record_token_usage [] "m1" 100 "e1"
      "2024/01/01 00:00:00") "m1" 150 "e2" "2024/01/01 00:00:01"
    (get_token_usage db none none).total_tokens = 250 ∧
    dictGet (get_token_usage db none none).by_model "m1" = some 250 := by
  intro db
  obtain ⟨htot, _, _, hby⟩ := get_token_usage_spec db none none
  constructor
  · rw [htot]; decide
  · rw [hby "m1" (by decide) (by decide)
      ⟨⟨"e1", "token_usage", some "m1", some 100, none, "2024/01/01 00:00:00"⟩,
        by decide, rfl⟩]
    decide

/-- C8: `create_backup` never lets an exception escape its boundary: every
run returns a boolean, `true` exactly when no primitive storage or I/O call
failed, `false` otherwise. -/
theorem create_backup_boolean (steps : List CopyStep) :
    (create_backup steps = .ok true ∨ create_backup steps = .ok false) ∧
    (create_backup steps = .ok true ↔ runCopySteps steps = .ok ()) := by
  have hrun : runCopySteps steps = .ok () ∨
      (∃ m, runCopySteps steps = .error (.sqliteError m)) ∨
      (∃ m, runCopySteps steps = .error (.osError m)) := by
    induction steps with
    | nil => exact Or.inl rfl
    | cons s rest ih =>
      cases hs : s.fails with
      | none => simpa [runCopySteps, hs] using ih
      | some msg =>
        cases hk : s.kind with
        | sqlite => exact Or.inr (Or.inl ⟨msg, by simp [runCopySteps, hs, hk]⟩)
        | osio => exact Or.inr (Or.inr ⟨msg, by simp [runCopySteps, hs, hk]⟩)
  rcases hrun with h | ⟨m, h⟩ | ⟨m, h⟩ <;> rw [create_backup, h] <;> simp

/-- C9: `export_to_markdown` on a missing chat id returns the `ValueError`
naming that chat instead of a result; on an existing chat it returns a
Markdown string beginning with the `# <chat name>` heading. -/
theorem export_to_markdown_spec (db : Database) (chat_id : String) :
    ((∀ c ∈ db.chat, c.id ≠ chat_id) →
      export_to_markdown db chat_id
        = .error (.valueError ("Chat with id '" ++ chat_id ++ "' not found"))) ∧
    (∀ c, db.chat.find? (fun c => c.id == chat_id) = some c →
      ∃ rest, export_to_markdown db chat_id = .ok ("# " ++ (c.name ++ rest))) := by
  constructor
  · intro h
    rw [export_to_markdown,
        List.find?_eq_none.mpr (fun c hc => by simpa using h c hc)]
  · intro c hc
    rw [export_to_markdown, hc]
    refine ⟨"\n" ++ joinLines ("" ::
      (((db.message.filter (fun m => m.chat_id == chat_id)).insertionSort
        (fun a b => a.date_time ≤ b.date_time)).map messageBlock).flatten), ?_⟩
    simp only [joinLines, String.append_assoc]

/-- C9 witness: on a one-chat database, a missing id raises and the live id
exports a string headed by the chat's name. -/
theorem export_to_markdown_spec_witness :
    let db : Database :=
      ⟨[⟨"c1", "My Chat", none, 0⟩],
       [⟨"m1", "c1", "user", "", "2024/01/01 00:00:00", "hello"⟩], []⟩
    (export_to_markdown db "nope"
        = .error (.valueError "Chat with id 'nope' not found")) ∧
    (∃ rest, export_to_markdown db "c1" = .ok ("# " ++ ("My Chat" ++ rest))) := by
  intro db
  constructor
  · exact (export_to_markdown_spec db "nope").1 (by decide)
  · exact (export_to_markdown_spec db "c1").2 ⟨"c1", "My Chat", none, 0⟩ (by decide)

/-- `INSERT OR IGNORE` only ever appends, and every appended row is an
incoming row that collides with nothing previously present. -/
theorem insertOrIgnore_decomp (cols : List String) (ex new : List (List String)) :
    ∃ added, insertOrIgnore cols ex new = ex ++ added ∧
      ∀ r ∈ added, r ∈ new ∧
        ∀ e ∈ ex, ¬(rowIdVal cols e == rowIdVal cols r) = true := by
  induction new generalizing ex with
  | nil => exact ⟨[], by simp [insertOrIgnore], by simp⟩
  | cons x xs ih =>
    rw [insertOrIgnore, List.foldl_cons]
    by_cases hc : ex.any (fun e => rowIdVal cols e == rowIdVal cols x)
    · rw [if_pos hc]
      obtain ⟨added, heq, hprops⟩ := ih ex
      exact ⟨added, heq, fun r hr =>
        ⟨List.mem_cons_of_mem _ (hprops r hr).1, (hprops r hr).2⟩⟩
    · rw [if_neg hc]
      obtain ⟨added, heq, hprops⟩ := ih (ex ++ [x])
      rw [insertOrIgnore] at heq
      refine ⟨x :: added, by rw [heq]; simp, ?_⟩
      intro r hr
      rcases List.mem_cons.mp hr with rfl | hr'
      · refine ⟨List.mem_cons_self _ _, ?_⟩
        intro e he hcon
        exact hc (List.any_eq_true.mpr ⟨e, he, hcon⟩)
      · refine ⟨List.mem_cons_of_mem _ (hprops r hr').1, ?_⟩
        intro e he
        exact (hprops r hr').2 e (List.mem_append_left _ he)

/-- An incoming row (of a batch with distinct primary keys) that collides
with nothing previously present ends up inserted. -/
theorem insertOrIgnore_mem (cols : List String) (ex new : List (List String))
    (hnd : (new.map (rowIdVal cols)).Nodup) (r : List String) (hr : r ∈ new)
    (hno : ∀ e ∈ ex, ¬(rowIdVal cols e == rowIdVal cols r) = true) :
    r ∈ insertOrIgnore cols ex new := by
  induction new generalizing ex with
  | nil => cases hr
  | cons x xs ih =>
    rw [insertOrIgnore, List.foldl_cons]
    rcases List.mem_cons.mp hr with rfl | hr'
    · have hc : ex.any (fun e => rowIdVal cols e == rowIdVal cols r) = false := by
        rw [List.any_eq_false]
        intro e he
        exact hno e he
      rw [if_neg (by simp [hc])]
      obtain ⟨added, heq, _⟩ := insertOrIgnore_decomp cols (ex ++ [r]) xs
      rw [insertOrIgnore] at heq
      rw [heq]
      exact List.mem_append_left _ (List.mem_append_right _ (List.mem_cons_self _ _))
    · have hxr : ¬(rowIdVal cols x == rowIdVal cols r) = true := by
        intro hcon
        have hx : rowIdVal cols x = rowIdVal cols r := by simpa using hcon
        have : rowIdVal cols r ∈ xs.map (rowIdVal cols) :=
          List.mem_map_of_mem _ hr'
        rw [List.map_cons, List.nodup_cons] at hnd
        exact hnd.1 (hx ▸ this)
      have hnd' : (xs.map (rowIdVal cols)).Nodup := by
        rw [List.map_cons, List.nodup_cons] at hnd
        exact hnd.2
      by_cases hc : ex.any (fun e => rowIdVal cols e == rowIdVal cols x)
      · rw [if_pos hc]
        exact ih ex hnd' hr' hno
      · rw [if_neg hc]
        apply ih (ex ++ [x]) hnd' hr'
        intro e he
        rcases List.mem_append.mp he with he' | he'
        · exact hno e he'
        · rw [List.mem_singleton] at he'
          exact he' ▸ hxr

/-- A batch with distinct primary keys disjoint from what is present is
inserted in full. -/
theorem insertOrIgnore_all (cols : List String) (ex new : List (List String))
    (hnd : (new.map (rowIdVal cols)).Nodup)
    (hdisj : ∀ r ∈ new, ∀ e ∈ ex, ¬(rowIdVal cols e == rowIdVal cols r) = true) :
    insertOrIgnore cols ex new = ex ++ new := by
  induction new generalizing ex with
  | nil => simp [insertOrIgnore]
  | cons x xs ih =>
    rw [insertOrIgnore, List.foldl_cons]
    have hc : ex.any (fun e => rowIdVal cols e == rowIdVal cols x) = false := by
      rw [List.any_eq_false]
      exact fun e he => hdisj x (List.mem_cons_self _ _) e he
    rw [if_neg (by simp [hc])]
    have hnd' : (xs.map (rowIdVal cols)).Nodup := by
      rw [List.map_cons, List.nodup_cons] at hnd
      exact hnd.2
    have hdisj' : ∀ r ∈ xs, ∀ e ∈ ex ++ [x],
        ¬(rowIdVal cols e == rowIdVal cols r) = true := by
      intro r hr e he
      rcases List.mem_append.mp he with he' | he'
      · exact hdisj r (List.mem_cons_of_mem _ hr) e he'
      · rw [List.mem_singleton] at he'
        subst he'
        intro hcon
        have hx : rowIdVal cols e = rowIdVal cols r := by simpa using hcon
        rw [List.map_cons, List.nodup_cons] at hnd
        exact hnd.1 (hx ▸ List.mem_map_of_mem _ hr)
    have hrest := ih (ex ++ [x]) hnd' hdisj'
    rw [insertOrIgnore] at hrest
    rw [hrest, List.append_assoc]
    rfl

/-- A name-preserving update of tables named `bn` does not disturb lookups
of any other table name. -/
theorem find?_map_update_ne (acc : List Table) (u : Table → Table) (bn n : String)
    (hu : ∀ t, (u t).name = t.name) (hne : bn ≠ n) :
    ((acc.map (fun t => if t.name == bn then u t else t)).find?
        (fun t => t.name == n))
      = acc.find? (fun t => t.name == n) := by
  induction acc with
  | nil => rfl
  | cons t ts ih =>
    rw [List.map_cons]
    by_cases ht : t.name = bn
    · rw [show (if t.name == bn then u t else t) = u t by simp [ht]]
      rw [List.find?_cons_of_neg _ (by simp [hu t, ht]; exact fun hh => hne hh),
          List.find?_cons_of_neg _ (by simp [ht]; exact fun hh => hne hh)]
      exact ih
    · rw [show (if t.name == bn then u t else t) = t by simp [ht]]
      by_cases htn : t.name = n
      · rw [List.find?_cons_of_pos _ (by simpa using htn),
            List.find?_cons_of_pos _ (by simpa using htn)]
      · rw [List.find?_cons_of_neg _ (by simpa using htn),
            List.find?_cons_of_neg _ (by simpa using htn)]
        exact ih

/-- Looking up `bn` after a name-preserving update of tables named `bn`
yields the updated first match. -/
theorem find?_map_update_self (acc : List Table) (u : Table → Table) (bn : String)
    (hu : ∀ t, (u t).name = t.name) :
    ((acc.map (fun t => if t.name == bn then u t else t)).find?
        (fun t => t.name == bn))
      = (acc.find? (fun t => t.name == bn)).map u := by
  induction acc with
  | nil => rfl
  | cons t ts ih =>
    rw [List.map_cons]
    by_cases ht : t.name = bn
    · rw [show (if t.name == bn then u t else t) = u t by simp [ht]]
      rw [List.find?_cons_of_pos _ (by simp [hu t, ht]),
          List.find?_cons_of_pos _ (by simpa using ht)]
      rfl
    · rw [show (if t.name == bn then u t else t) = t by simp [ht]]
      rw [List.find?_cons_of_neg _ (by simpa using ht),
          List.find?_cons_of_neg _ (by simpa using ht)]
      exact ih

/-- Merging one backup table does not disturb lookups of other names. -/
theorem mergeTableStep_other (acc : List Table) (bt : Table) (n : String)
    (hne : bt.name ≠ n) :
    (mergeTableStep acc bt).find? (fun t => t.name == n)
      = acc.find? (fun t => t.name == n) := by
  rw [mergeTableStep]
  cases hf : acc.find? (fun t => t.name == bt.name) with
  | none =>
    rw [List.find?_append]
    have h2 : ([{ bt with rows := if bt.cols.contains "id"
        then insertOrIgnore bt.cols [] bt.rows
        else bt.rows }].find? (fun t => t.name == n)) = none := by
      rw [List.find?_cons_of_neg _ (by simpa using hne)]
      rfl
    rw [h2, Option.or_none]
  | some lt =>
    exact find?_map_update_ne acc _ bt.name n (fun t => rfl) hne

/-- Merging a run of backup tables none of which bears the name `n` leaves
lookups of `n` unchanged. -/
theorem fold_merge_other (backup : List Table) (acc : List Table) (n : String)
    (h : ∀ bt ∈ backup, bt.name ≠ n) :
    (backup.foldl mergeTableStep acc).find? (fun t => t.name == n)
      = acc.find? (fun t => t.name == n) := by
  induction backup generalizing acc with
  | nil => rfl
  | cons bt rest ih =>
    rw [List.foldl_cons, ih _ (fun x hx => h x (List.mem_cons_of_mem _ hx)),
        mergeTableStep_other _ _ _ (h bt (List.mem_cons_self _ _))]

/-- Where the merged database's table of a backup table's name comes from:
the live table with the backup rows or-ignored in, or — when the name is new
— a table created from the backup. -/
theorem restore_backup_merge_find (live backup : List Table) (bt : Table)
    (hmem : bt ∈ backup) (hnd : (backup.map Table.name).Nodup) :
    (restore_backup_merge live backup).find? (fun t => t.name == bt.name)
      = match live.find? (fun t => t.name == bt.name) with
        | some lt => some { lt with rows := if bt.cols.contains "id"
                              then insertOrIgnore bt.cols lt.rows bt.rows
                              else lt.rows ++ bt.rows }
        | none => some { bt with rows := if bt.cols.contains "id"
                              then insertOrIgnore bt.cols [] bt.rows
                              else bt.rows } := by
  obtain ⟨pre, post, rfl⟩ := List.append_of_mem hmem
  rw [List.map_append, List.map_cons, List.nodup_append] at hnd
  obtain ⟨h1, h2, h3⟩ := hnd
  have hpre : ∀ x ∈ pre, x.name ≠ bt.name := by
    intro x hx hcon
    exact (h3 (hcon ▸ List.mem_map_of_mem Table.name hx)) (List.mem_cons_self _ _)
  have hpost : ∀ x ∈ post, x.name ≠ bt.name := by
    intro x hx hcon
    exact (List.nodup_cons.mp h2).1 (hcon ▸ List.mem_map_of_mem Table.name hx)
  rw [restore_backup_merge, List.foldl_append, List.foldl_cons,
      fold_merge_other post _ _ hpost]
  have hacc : (pre.foldl mergeTableStep live).find? (fun t => t.name == bt.name)
      = live.find? (fun t => t.name == bt.name) :=
    fold_merge_other pre live _ hpre
  rw [mergeTableStep, hacc]
  cases hl : live.find? (fun t => t.name == bt.name) with
  | none =>
    dsimp only
    rw [List.find?_append, hacc, hl,
        List.find?_cons_of_pos _ (by simp), Option.none_or]
  | some lt =>
    dsimp only
    rw [find?_map_update_self _
        (fun t => { t with rows := if bt.cols.contains "id"
            then insertOrIgnore bt.cols t.rows bt.rows
            else t.rows ++ bt.rows }) _ (fun t => rfl), hacc, hl, Option.map_some']

/-- C5: merge-mode restore keeps every live row unchanged and in place,
drops each backup row whose primary key already exists live, inserts each
backup row whose key does not, and creates tables present only in the
backup with exactly the backup's rows. -/
theorem restore_backup_merge_spec (live backup : List Table) (bt : Table)
    (hmem : bt ∈ backup) (hndb : (backup.map Table.name).Nodup)
    (hid : bt.cols.contains "id" = true)
    (hndr : (bt.rows.map (rowIdVal bt.cols)).Nodup) :
    (∀ lt, live.find? (fun t => t.name == bt.name) = some lt →
      ∃ added,
        (restore_backup_merge live backup).find? (fun t => t.name == bt.name)
          = some { lt with rows := lt.rows ++ added } ∧
        (∀ r ∈ added, r ∈ bt.rows ∧
          ∀ e ∈ lt.rows, ¬(rowIdVal bt.cols e == rowIdVal bt.cols r) = true) ∧
        (∀ r ∈ bt.rows,
          (∃ e ∈ lt.rows, (rowIdVal bt.cols e == rowIdVal bt.cols r) = true) →
          r ∉ added) ∧
        (∀ r ∈ bt.rows,
          (∀ e ∈ lt.rows, ¬(rowIdVal bt.cols e == rowIdVal bt.cols r) = true) →
          r ∈ lt.rows ++ added)) ∧
    (live.find? (fun t => t.name == bt.name) = none →
      (restore_backup_merge live backup).find? (fun t => t.name == bt.name)
        = some { bt with rows := bt.rows }) := by
  constructor
  · intro lt hl
    obtain ⟨added, heq, hprops⟩ := insertOrIgnore_decomp bt.cols lt.rows bt.rows
    refine ⟨added, ?_, hprops, ?_, ?_⟩
    · rw [restore_backup_merge_find live backup bt hmem hndb, hl]
      dsimp only
      rw [if_pos hid, heq]
    · rintro r _ ⟨e, he, hcol⟩ hadd
      exact (hprops r hadd).2 e he hcol
    · intro r hr hno
      rw [← heq]
      exact insertOrIgnore_mem bt.cols lt.rows bt.rows hndr r hr hno
  · intro hl
    rw [restore_backup_merge_find live backup bt hmem hndb, hl]
    dsimp only
    rw [if_pos hid, insertOrIgnore_all bt.cols [] bt.rows hndr (by simp),
        List.nil_append]

/-- C5 witness: merging a backup `chat` table holding one colliding and one
fresh row into a one-row live table. -/
theorem restore_backup_merge_spec_witness :
    let cols := ["id", "name", "folder", "is_template"]
    let lt : Table := ⟨"chat", "CREATE TABLE chat", cols, [["c1", "Live", "", "0"]]⟩
    let bt : Table := ⟨"chat", "CREATE TABLE chat", cols,
      [["c1", "FromBackup", "", "0"], ["c2", "New", "", "0"]]⟩
    ∃ added,
      (restore_backup_merge [lt] [bt]).find? (fun t => t.name == bt.name)
        = some { lt with rows := lt.rows ++ added } ∧
      (∀ r ∈ added, r ∈ bt.rows ∧
        ∀ e ∈ lt.rows, ¬(rowIdVal bt.cols e == rowIdVal bt.cols r) = true) ∧
      (∀ r ∈ bt.rows,
        (∃ e ∈ lt.rows, (rowIdVal bt.cols e == rowIdVal bt.cols r) = true) →
        r ∉ added) ∧
      (∀ r ∈ bt.rows,
        (∀ e ∈ lt.rows, ¬(rowIdVal bt.cols e == rowIdVal bt.cols r) = true) →
        r ∈ lt.rows ++ added) := by
  intro cols lt bt
  exact (restore_backup_merge_spec [lt] [bt] bt (by decide) (by decide)
    (by decide) (by decide)).1 lt (by decide)

theorem renOf_cons (pr : String × String) (rest : List (String × String)) (k : String) :
    renOf (pr :: rest) k = if pr.1 = k then pr.2 else renOf rest k := by
  by_cases h : pr.1 = k
  · rw [renOf, List.find?_cons_of_pos _ (by simpa using h), if_pos h]
  · rw [renOf, List.find?_cons_of_neg _ (by simpa using h), if_neg h, renOf]

theorem renOf_not_mem (pairs : List (String × String)) (k : String)
    (h : k ∉ pairs.map Prod.fst) : renOf pairs k = k := by
  rw [renOf, List.find?_eq_none.mpr ?_]
  intro p hp hcon
  exact h (by
    have : p.1 = k := by simpa using hcon
    exact this ▸ List.mem_map_of_mem Prod.fst hp)

theorem renOf_mem_zip (olds news : List String) (k : String)
    (hk : k ∈ olds) (hlen : olds.length ≤ news.length) :
    renOf (olds.zip news) k ∈ news := by
  induction olds generalizing news with
  | nil => cases hk
  | cons o os ih =>
    cases news with
    | nil => simp at hlen
    | cons n ns =>
      rw [List.zip_cons_cons, renOf_cons]
      by_cases h : o = k
      · rw [if_pos h]; exact List.mem_cons_self _ _
      · rw [if_neg h]
        rcases List.mem_cons.mp hk with rfl | hk'
        · exact absurd rfl h
        · exact List.mem_cons_of_mem _ (ih ns hk' (by simpa using hlen))

theorem foldl_rename_eq_map {α : Type} (key : α → String) (upd : α → String → α)
    (hkey : ∀ x n, key (upd x n) = n)
    (hupd2 : ∀ x n m, upd (upd x n) m = upd x m)
    (hid : ∀ x, upd x (key x) = x)
    (pairs : List (String × String)) (l : List α)
    (hnd : (pairs.map Prod.fst).Nodup)
    (hdisj : ∀ p ∈ pairs, ∀ q ∈ pairs, p.2 ≠ q.1) :
    pairs.foldl (fun acc pr => acc.map (fun x =>
        if key x == pr.1 then upd x pr.2 else x)) l
      = l.map (fun x => upd x (renOf pairs (key x))) := by
  induction pairs generalizing l with
  | nil =>
    rw [List.foldl_nil]
    have : (fun x => upd x (renOf [] (key x))) = fun x => x :=
      funext (fun x => hid x)
    rw [this, List.map_id']
  | cons pr rest ih =>
    rw [List.foldl_cons,
        ih _ (List.nodup_cons.mp (by simpa using hnd)).2
          (fun p hp q hq => hdisj p (List.mem_cons_of_mem _ hp)
            q (List.mem_cons_of_mem _ hq)),
        List.map_map]
    apply List.map_congr_left
    intro x _
    show upd (if key x == pr.1 then upd x pr.2 else x)
        (renOf rest (key (if key x == pr.1 then upd x pr.2 else x)))
      = upd x (renOf (pr :: rest) (key x))
    rw [renOf_cons]
    by_cases hx : key x = pr.1
    · rw [show (key x == pr.1) = true by simpa using hx, if_pos rfl,
          if_pos hx.symm, hkey, renOf_not_mem rest pr.2 ?nm, hupd2]
      case nm =>
        intro hmem
        rw [List.mem_map] at hmem
        obtain ⟨q, hq, hq2⟩ := hmem
        exact hdisj pr (List.mem_cons_self _ _) q (List.mem_cons_of_mem _ hq) hq2.symm
    · rw [show (key x == pr.1) = false by simpa using hx, if_neg (by simp),
          if_neg (fun hh => hx hh.symm)]

/-- C3 counterexample: importing a chat named "Name" into a database whose
only live chat is named "Name" (no numbered variants live) renames it to
"Name 1", not "Name 2": the numbering scheme starts at 1. -/
theorem import_chat_rename_starts_at_one :
    let live : Database := ⟨[⟨"c1", "Name", none, 0⟩], [], []⟩
    let imp : Database := ⟨[⟨"c2", "Name", none, 0⟩], [], []⟩
    ((import_chat live imp ["Name"] none ["f1", "f2"]).1.chat.map ChatRow.name
        = ["Name", "Name 1"]) ∧
    ¬ ∃ c ∈ (import_chat live imp ["Name"] none ["f1", "f2"]).1.chat,
        c.name = "Name 2" := by
  intro live imp
  exact ⟨by decide, by decide⟩

theorem importPass0_chat (live imp : Database) (cn : List String) :
    (importPass0 live imp cn).chat = imp.chat.map (fun ic =>
      if live.chat.any (fun dc => dc.name == ic.name)
      then { ic with name := generate_numbered_name ic.name cn }
      else ic) := rfl

theorem importPass0_message (live imp : Database) (cn : List String) :
    (importPass0 live imp cn).message = imp.message := rfl

theorem importPass0_attachment (live imp : Database) (cn : List String) :
    (importPass0 live imp cn).attachment = imp.attachment := rfl

theorem importPass1_chat (db : Database) (pairs : List (String × String)) :
    (importPass1 db pairs).chat
      = pairs.foldl (fun l pr => l.map (fun c =>
          if c.id == pr.1 then { c with id := pr.2 } else c)) db.chat := by
  rw [importPass1]
  induction pairs generalizing db with
  | nil => rfl
  | cons pr rest ih => rw [List.foldl_cons, List.foldl_cons, ih]

theorem importPass1_message (db : Database) (pairs : List (String × String)) :
    (importPass1 db pairs).message
      = pairs.foldl (fun l pr => l.map (fun m =>
          if m.chat_id == pr.1 then { m with chat_id := pr.2 } else m)) db.message := by
  rw [importPass1]
  induction pairs generalizing db with
  | nil => rfl
  | cons pr rest ih => rw [List.foldl_cons, List.foldl_cons, ih]

theorem importPass1_attachment (db : Database) (pairs : List (String × String)) :
    (importPass1 db pairs).attachment = db.attachment := by
  rw [importPass1]
  induction pairs generalizing db with
  | nil => rfl
  | cons pr rest ih => rw [List.foldl_cons, ih]

theorem importPass2_chat (db : Database) (pairs : List (String × String)) :
    (importPass2 db pairs).chat = db.chat := by
  rw [importPass2]
  induction pairs generalizing db with
  | nil => rfl
  | cons pr rest ih => rw [List.foldl_cons, ih]

theorem importPass2_message (db : Database) (pairs : List (String × String)) :
    (importPass2 db pairs).message
      = pairs.foldl (fun l pr => l.map (fun m =>
          if m.id == pr.1 then { m with id := pr.2 } else m)) db.message := by
  rw [importPass2]
  induction pairs generalizing db with
  | nil => rfl
  | cons pr rest ih => rw [List.foldl_cons, List.foldl_cons, ih]

theorem importPass2_attachment (db : Database) (pairs : List (String × String)) :
    (importPass2 db pairs).attachment
      = pairs.foldl (fun l pr => l.map (fun a =>
          if a.message_id == pr.1 then { a with message_id := pr.2 } else a)) db.attachment := by
  rw [importPass2]
  induction pairs generalizing db with
  | nil => rfl
  | cons pr rest ih => rw [List.foldl_cons, List.foldl_cons, ih]

theorem importPass3_chat (db : Database) (pairs : List (String × String)) :
    (importPass3 db pairs).chat = db.chat := by
  rw [importPass3]
  induction pairs generalizing db with
  | nil => rfl
  | cons pr rest ih => rw [List.foldl_cons, ih]

theorem importPass3_message (db : Database) (pairs : List (String × String)) :
    (importPass3 db pairs).message = db.message := by
  rw [importPass3]
  induction pairs generalizing db with
  | nil => rfl
  | cons pr rest ih => rw [List.foldl_cons, ih]

theorem importPass3_attachment (db : Database) (pairs : List (String × String)) :
    (importPass3 db pairs).attachment
      = pairs.foldl (fun l pr => l.map (fun a =>
          if a.id == pr.1 then { a with id := pr.2 } else a)) db.attachment := by
  rw [importPass3]
  induction pairs generalizing db with
  | nil => rfl
  | cons pr rest ih => rw [List.foldl_cons, List.foldl_cons, ih]

theorem generate_numbered_name_first (name : String) (cl : List String)
    (h1 : name ∈ cl) (h2 : numberedCandidate name 1 ∉ cl) :
    generate_numbered_name name cl = numberedCandidate name 1 := by
  rw [generate_numbered_name, if_pos h1]
  cases cl with
  | nil => cases h1
  | cons a as =>
    show numberedLoop name (a :: as) (as.length + 1) 1 = _
    rw [numberedLoop, if_neg h2]

theorem importInsert_chat (live imp3 : Database) (fid : Option String) :
    (importInsert live imp3 fid).chat
      = live.chat ++ imp3.chat.map (fun c =>
          { c with folder := fid, is_template := 0 }) := rfl

theorem importInsert_message (live imp3 : Database) (fid : Option String) :
    (importInsert live imp3 fid).message = live.message ++ imp3.message := rfl

theorem importInsert_attachment (live imp3 : Database) (fid : Option String) :
    (importInsert live imp3 fid).attachment
      = live.attachment ++ imp3.attachment := rfl

/-- C3 (amended): an imported chat whose name equals an existing live chat's
name, with no numbered variant in the live name list, is renamed by the
numbering scheme starting at 1 ("Name 1", for dotted filenames "Name 1.ext");
its messages and attachments are all carried over — with the chat link moved
to the chat's fresh id, message and attachment ids replaced by fresh
`generate_uuid` values exactly when the original ids collided, and
attachment-to-message links renamed consistently. -/
theorem import_chat_amended
    (live imp : Database) (ic : ChatRow) (chat_names : List String)
    (folder_id : Option String) (f0 : String) (frest : List String)
    (hchat : imp.chat = [ic])
    (hname_live : live.chat.any (fun dc => dc.name == ic.name) = true)
    (hname_cl : ic.name ∈ chat_names)
    (hcand : numberedCandidate ic.name 1 ∉ chat_names)
    (hidcol : live.chat.any (fun dc => dc.id == ic.id) = true)
    (hmc : ∀ m ∈ imp.message, m.chat_id = ic.id)
    (hmids : (imp.message.map MessageRow.id).Nodup)
    (haids : (imp.attachment.map AttachmentRow.id).Nodup)
    (hflen : imp.message.length + imp.attachment.length ≤ frest.length)
    (hfdisj : ∀ n ∈ f0 :: frest, n ≠ ic.id ∧ (∀ m ∈ imp.message, n ≠ m.id)
      ∧ (∀ a ∈ imp.attachment, n ≠ a.id)) :
    ∃ mren aren : String → String,
      ((import_chat live imp chat_names folder_id (f0 :: frest)).1.chat
          = live.chat ++ [⟨f0, numberedCandidate ic.name 1, folder_id, 0⟩]) ∧
      ((import_chat live imp chat_names folder_id (f0 :: frest)).1.message
          = live.message ++ imp.message.map (fun m =>
              { m with id := mren m.id, chat_id := f0 })) ∧
      ((import_chat live imp chat_names folder_id (f0 :: frest)).1.attachment
          = live.attachment ++ imp.attachment.map (fun a =>
              { a with id := aren a.id, message_id := mren a.message_id })) ∧
      (∀ m ∈ imp.message,
        (live.message.any (fun dm => dm.id == m.id) = true → mren m.id ∈ frest) ∧
        (live.message.any (fun dm => dm.id == m.id) = false → mren m.id = m.id)) ∧
      (∀ a ∈ imp.attachment,
        (live.attachment.any (fun da => da.id == a.id) = true → aren a.id ∈ frest) ∧
        (live.attachment.any (fun da => da.id == a.id) = false → aren a.id = a.id)) := by
  have hgen : generate_numbered_name ic.name chat_names
      = numberedCandidate ic.name 1 :=
    generate_numbered_name_first _ _ hname_cl hcand
  set M : List String := (imp.message.filter (fun im =>
    live.message.any (fun dm => dm.id == im.id))).map MessageRow.id with hM
  set A : List String := (imp.attachment.filter (fun ia =>
    live.attachment.any (fun da => da.id == ia.id))).map AttachmentRow.id with hA
  have hMlen : M.length ≤ imp.message.length := by
    rw [hM, List.length_map]
    exact List.length_filter_le _ _
  have hAlen : A.length ≤ imp.attachment.length := by
    rw [hA, List.length_map]
    exact List.length_filter_le _ _
  have hMfr : M.length ≤ frest.length := by omega
  have hAfr : A.length ≤ (frest.drop M.length).length := by
    rw [List.length_drop]
    omega
  have hMnd : M.Nodup := by
    rw [hM]
    exact ((List.filter_sublist _).map MessageRow.id).nodup hmids
  have hAnd : A.Nodup := by
    rw [hA]
    exact ((List.filter_sublist _).map AttachmentRow.id).nodup haids
  have hMmem : ∀ k ∈ M, ∃ m ∈ imp.message, m.id = k := by
    intro k hk
    rw [hM, List.mem_map] at hk
    obtain ⟨m, hmf, hmk⟩ := hk
    exact ⟨m, (List.mem_filter.mp hmf).1, hmk⟩
  have hAmem : ∀ k ∈ A, ∃ a ∈ imp.attachment, a.id = k := by
    intro k hk
    rw [hA, List.mem_map] at hk
    obtain ⟨a, haf, hak⟩ := hk
    exact ⟨a, (List.mem_filter.mp haf).1, hak⟩
  set imp0 := importPass0 live imp chat_names with himp0
  set ren1 := (chatIdCollisions live imp0).zip (f0 :: frest) with hren1
  set imp1 := importPass1 imp0 ren1 with himp1
  set fresh1 := (f0 :: frest).drop (chatIdCollisions live imp0).length with hfresh1
  set ren2 := (messageIdCollisions live imp1).zip fresh1 with hren2
  set imp2 := importPass2 imp1 ren2 with himp2
  set fresh2 := fresh1.drop (messageIdCollisions live imp1).length with hfresh2
  set ren3 := (attachmentIdCollisions live imp2).zip fresh2 with hren3
  set imp3 := importPass3 imp2 ren3 with himp3
  have hfst : (import_chat live imp chat_names folder_id (f0 :: frest)).1
      = importInsert live imp3 folder_id := by
    rw [himp3, himp2, himp1, hren3, hren2, hren1, hfresh2, hfresh1, himp0]
    rfl
  have h0c : imp0.chat
      = [⟨ic.id, numberedCandidate ic.name 1, ic.folder, ic.is_template⟩] := by
    rw [himp0, importPass0_chat, hchat, List.map_cons, List.map_nil,
        if_pos hname_live, hgen]
  have h0m : imp0.message = imp.message := by rw [himp0, importPass0_message]
  have h0a : imp0.attachment = imp.attachment := by rw [himp0, importPass0_attachment]
  have h1col : chatIdCollisions live imp0 = [ic.id] := by
    rw [chatIdCollisions, h0c]
    simp [hidcol]
  have hren1e : ren1 = [(ic.id, f0)] := by rw [hren1, h1col]; rfl
  have h1c : imp1.chat = [⟨f0, numberedCandidate ic.name 1, ic.folder, ic.is_template⟩] := by
    rw [himp1, importPass1_chat, hren1e, h0c]
    simp
  have h1m : imp1.message = imp.message.map (fun m =>
      ⟨m.id, f0, m.role, m.model, m.date_time, m.content⟩) := by
    rw [himp1, importPass1_message, hren1e, h0m, List.foldl_cons, List.foldl_nil]
    exact List.map_congr_left (fun m hm => by simp [hmc m hm])
  have h1a : imp1.attachment = imp.attachment := by
    rw [himp1, importPass1_attachment, h0a]
  have hfresh1e : fresh1 = frest := by rw [hfresh1, h1col]; rfl
  have h2col : messageIdCollisions live imp1 = M := by
    rw [messageIdCollisions, h1m, List.filter_map, List.map_map, hM]
    rfl
  have hren2e : ren2 = M.zip frest := by rw [hren2, h2col, hfresh1e]
  have hdj2 : ∀ p ∈ M.zip frest, ∀ q ∈ M.zip frest, p.2 ≠ q.1 := by
    intro p hp q hq
    have hp2 : p.2 ∈ frest := (List.of_mem_zip hp).2
    have hq1 : q.1 ∈ M := (List.of_mem_zip hq).1
    obtain ⟨m, hm, hmk⟩ := hMmem q.1 hq1
    exact hmk ▸ (hfdisj p.2 (List.mem_cons_of_mem _ hp2)).2.1 m hm
  have hnd2 : ((M.zip frest).map Prod.fst).Nodup := by
    rw [List.map_fst_zip _ _ hMfr]
    exact hMnd
  have h2m : imp2.message = imp.message.map (fun m =>
      ⟨renOf (M.zip frest) m.id, f0, m.role, m.model, m.date_time, m.content⟩) := by
    rw [himp2, importPass2_message, hren2e, h1m,
        foldl_rename_eq_map MessageRow.id (fun m n => { m with id := n })
          (fun _ _ => rfl) (fun _ _ _ => rfl) (fun _ => rfl) _ _ hnd2 hdj2,
        List.map_map]
    rfl
  have h2a : imp2.attachment = imp.attachment.map (fun a =>
      ⟨a.id, renOf (M.zip frest) a.message_id, a.type, a.name, a.content⟩) := by
    rw [himp2, importPass2_attachment, hren2e, h1a,
        foldl_rename_eq_map AttachmentRow.message_id
          (fun a n => { a with message_id := n })
          (fun _ _ => rfl) (fun _ _ _ => rfl) (fun _ => rfl) _ _ hnd2 hdj2]
  have h2c : imp2.chat = [⟨f0, numberedCandidate ic.name 1, ic.folder, ic.is_template⟩] := by
    rw [himp2, importPass2_chat, h1c]
  have hfresh2e : fresh2 = frest.drop M.length := by
    rw [hfresh2, h2col, hfresh1e]
  have h3col : attachmentIdCollisions live imp2 = A := by
    rw [attachmentIdCollisions, h2a, List.filter_map, List.map_map, hA]
    rfl
  have hren3e : ren3 = A.zip (frest.drop M.length) := by
    rw [hren3, h3col, hfresh2e]
  have hdj3 : ∀ p ∈ A.zip (frest.drop M.length),
      ∀ q ∈ A.zip (frest.drop M.length), p.2 ≠ q.1 := by
    intro p hp q hq
    have hp2 : p.2 ∈ frest := List.mem_of_mem_drop (List.of_mem_zip hp).2
    have hq1 : q.1 ∈ A := (List.of_mem_zip hq).1
    obtain ⟨a, ha, hak⟩ := hAmem q.1 hq1
    exact hak ▸ (hfdisj p.2 (List.mem_cons_of_mem _ hp2)).2.2 a ha
  have hnd3 : ((A.zip (frest.drop M.length)).map Prod.fst).Nodup := by
    rw [List.map_fst_zip _ _ hAfr]
    exact hAnd
  have h3a : imp3.attachment = imp.attachment.map (fun a =>
      ⟨renOf (A.zip (frest.drop M.length)) a.id,
       renOf (M.zip frest) a.message_id, a.type, a.name, a.content⟩) := by
    rw [himp3, importPass3_attachment, hren3e, h2a,
        foldl_rename_eq_map AttachmentRow.id (fun a n => { a with id := n })
          (fun _ _ => rfl) (fun _ _ _ => rfl) (fun _ => rfl) _ _ hnd3 hdj3,
        List.map_map]
    rfl
  have h3m : imp3.message = imp2.message := by rw [himp3, importPass3_message]
  have h3c : imp3.chat = [⟨f0, numberedCandidate ic.name 1, ic.folder, ic.is_template⟩] := by
    rw [himp3, importPass3_chat, h2c]
  refine ⟨fun k => renOf (M.zip frest) k,
          fun k => renOf (A.zip (frest.drop M.length)) k, ?_, ?_, ?_, ?_, ?_⟩
  · rw [hfst, importInsert_chat, h3c]
    simp
  · rw [hfst, importInsert_message, h3m, h2m]
  · rw [hfst, importInsert_attachment, h3a]
  · intro m hm
    constructor
    · intro hl
      exact renOf_mem_zip M frest m.id
        (List.mem_map_of_mem MessageRow.id (List.mem_filter.mpr ⟨hm, hl⟩)) hMfr
    · intro hl
      apply renOf_not_mem
      rw [List.map_fst_zip _ _ hMfr]
      intro hmem
      rw [hM, List.mem_map] at hmem
      obtain ⟨m', hm'f, hm'id⟩ := hmem
      obtain ⟨hm'mem, hm'cond⟩ := List.mem_filter.mp hm'f
      have : m' = m := List.inj_on_of_nodup_map hmids hm'mem hm hm'id
      rw [this] at hm'cond
      rw [hl] at hm'cond
      cases hm'cond
  · intro a ha
    constructor
    · intro hl
      exact List.mem_of_mem_drop (renOf_mem_zip A (frest.drop M.length) a.id
        (List.mem_map_of_mem AttachmentRow.id (List.mem_filter.mpr ⟨ha, hl⟩)) hAfr)
    · intro hl
      apply renOf_not_mem
      rw [List.map_fst_zip _ _ hAfr]
      intro hmem
      rw [hA, List.mem_map] at hmem
      obtain ⟨a', ha'f, ha'id⟩ := hmem
      obtain ⟨ha'mem, ha'cond⟩ := List.mem_filter.mp ha'f
      have : a' = a := List.inj_on_of_nodup_map haids ha'mem ha ha'id
      rw [this] at ha'cond
      rw [hl] at ha'cond
      cases ha'cond

/-- C3 witness: a one-chat import whose chat, message and attachment ids all
collide with live rows, applied to the amended import theorem. -/
theorem import_chat_amended_witness :
    let live : Database :=
      ⟨[⟨"c1", "Name", none, 0⟩],
       [⟨"m1", "c1", "user", "", "2024/01/01 00:00:00", "hi"⟩],
       [⟨"a1", "m1", "plain_text", "f", "x"⟩]⟩
    let imp : Database :=
      ⟨[⟨"c1", "Name", none, 0⟩],
       [⟨"m1", "c1", "user", "", "2024/01/01 00:00:01", "hello"⟩],
       [⟨"a1", "m1", "plain_text", "g", "y"⟩]⟩
    let ic : ChatRow := ⟨"c1", "Name", none, 0⟩
    ∃ mren aren : String → String,
      ((import_chat live imp ["Name"] none ("f0" :: ["f1", "f2"])).1.chat
          = live.chat ++ [⟨"f0", numberedCandidate ic.name 1, none, 0⟩]) ∧
      ((import_chat live imp ["Name"] none ("f0" :: ["f1", "f2"])).1.message
          = live.message ++ imp.message.map (fun m =>
              { m with id := mren m.id, chat_id := "f0" })) ∧
      ((import_chat live imp ["Name"] none ("f0" :: ["f1", "f2"])).1.attachment
          = live.attachment ++ imp.attachment.map (fun a =>
              { a with id := aren a.id, message_id := mren a.message_id })) ∧
      (∀ m ∈ imp.message,
        (live.message.any (fun dm => dm.id == m.id) = true →
          mren m.id ∈ ["f1", "f2"]) ∧
        (live.message.any (fun dm => dm.id == m.id) = false →
          mren m.id = m.id)) ∧
      (∀ a ∈ imp.attachment,
        (live.attachment.any (fun da => da.id == a.id) = true →
          aren a.id ∈ ["f1", "f2"]) ∧
        (live.attachment.any (fun da => da.id == a.id) = false →
          aren a.id = a.id)) := by
  intro live imp ic
  exact import_chat_amended live imp ic ["Name"] none "f0" ["f1", "f2"]
    (by decide) (by decide) (by decide) (by decide) (by decide)
    (by decide) (by decide) (by decide) (by decide) (by decide)

/-- The maximum of a rearrangement of `1..n` is `n`. -/
theorem foldl_max_of_perm_range (l : List Nat) (n : Nat)
    (h : l.Perm (List.range' 1 n)) : l.foldl max 0 = n := by
  cases n with
  | zero =>
    have hl : l.length = 0 := by simpa using h.length_eq
    rw [List.length_eq_zero.mp hl]
    rfl
  | succ k =>
    have hub : ∀ x ∈ l, x ≤ k + 1 := by
      intro x hx
      have := h.mem_iff.mp hx
      rw [List.mem_range'_1] at this
      omega
    have hmem : k + 1 ∈ l := by
      apply h.mem_iff.mpr
      rw [List.mem_range'_1]
      omega
    have hle := (foldl_max_le l 0).2 (k + 1) hmem
    rcases foldl_max_mem l 0 with h0 | hm
    · omega
    · exact le_antisymm (hub _ hm) hle

-- map (·-1) over range' (s+1) n
/-- Decrementing `s+1..s+n` yields `s..s+n-1`. -/
theorem map_pred_range' (s n : Nat) :
    (List.range' (s + 1) n).map (fun x => x - 1) = List.range' s n := by
  induction n generalizing s with
  | zero => rfl
  | succ m ih =>
    rw [List.range'_succ, List.map_cons, List.range'_succ, ih (s + 1)]
    simp

/-- Removing `k` from `1..N` and closing the gap yields `1..N-1`. -/
theorem shift_erase_range (N k : Nat) (h1 : 1 ≤ k) (h2 : k ≤ N) :
    ((List.range' 1 N).erase k).map (fun x => if k < x then x - 1 else x)
      = List.range' 1 (N - 1) := by
  have hsplit : List.range' 1 N = List.range' 1 (k - 1) ++ List.range' k (N - k + 1) := by
    have hr := List.range'_append 1 (k - 1) (N - k + 1) 1
    rw [show 1 + 1 * (k - 1) = k by omega] at hr
    rw [show N - k + 1 + (k - 1) = N by omega] at hr
    exact hr.symm
  have hk1 : List.range' k (N - k + 1) = k :: List.range' (k + 1) (N - k) := by
    rw [List.range'_succ]
  have herase : (List.range' 1 N).erase k
      = List.range' 1 (k - 1) ++ List.range' (k + 1) (N - k) := by
    rw [hsplit, hk1, List.erase_append_right, List.erase_cons_head]
    intro hcon
    rw [List.mem_range'_1] at hcon
    omega
  rw [herase, List.map_append]
  have hA : (List.range' 1 (k - 1)).map (fun x => if k < x then x - 1 else x)
      = List.range' 1 (k - 1) := by
    have hcg : ∀ x ∈ List.range' 1 (k - 1),
        (if k < x then x - 1 else x) = x := by
      intro x hx
      rw [List.mem_range'_1] at hx
      rw [if_neg (by omega)]
    rw [List.map_congr_left hcg, List.map_id']
  have hB : (List.range' (k + 1) (N - k)).map (fun x => if k < x then x - 1 else x)
      = List.range' k (N - k) := by
    rw [show (List.range' (k + 1) (N - k)).map (fun x => if k < x then x - 1 else x)
        = (List.range' (k + 1) (N - k)).map (fun x => x - 1) from
      List.map_congr_left (fun x hx => by
        rw [List.mem_range'_1] at hx
        rw [if_pos (by omega)]),
      map_pred_range']
  rw [hA, hB]
  have hr := List.range'_append 1 (k - 1) (N - k) 1
  rw [show 1 + 1 * (k - 1) = k by omega] at hr
  rw [show N - k + (k - 1) = N - 1 by omega] at hr
  exact hr

/-- One `pin_model` call preserves key uniqueness and per-instance order
density. -/
theorem pin_preserves (db : List Pin) (pid m inst : String)
    (hkeys : KeysNodup db)
    (hinv : ∀ i, (ordersOf db i).Perm
      (List.range' 1 (ordersOf db i).length)) :
    KeysNodup (pin_model db pid m inst).1 ∧
    ∀ i, (ordersOf (pin_model db pid m inst).1 i).Perm
      (List.range' 1 (ordersOf (pin_model db pid m inst).1 i).length) := by
  rw [pin_model]
  cases hf : findPin db m inst with
  | some p => exact ⟨hkeys, hinv⟩
  | none =>
    rw [findPin, List.find?_eq_none] at hf
    constructor
    · rw [KeysNodup, List.map_append, List.nodup_append]
      refine ⟨hkeys, List.nodup_singleton _, ?_⟩
      intro a ha hb
      rw [List.map_cons, List.map_nil, List.mem_singleton] at hb
      rw [List.mem_map] at ha
      obtain ⟨q, hq, hqa⟩ := ha
      have hqmi : q.model_name = m ∧ q.instance_id = inst := by
        simpa using hqa.trans hb
      exact hf q hq (by simp [hqmi.1, hqmi.2])
    · intro i
      rw [ordersOf, List.filter_append, List.map_append]
      by_cases hi : inst = i
      · subst hi
        rw [show (List.filter (fun p => p.instance_id == inst)
              [(⟨pid, m, inst, maxPinOrder db inst + 1⟩ : Pin)])
            = [⟨pid, m, inst, maxPinOrder db inst + 1⟩] by simp]
        rw [List.map_cons, List.map_nil]
        have hmax : maxPinOrder db inst = (ordersOf db inst).length :=
          foldl_max_of_perm_range _ _ (hinv inst)
        rw [hmax]
        set N := (ordersOf db inst).length with hN
        rw [List.length_append]
        show ((ordersOf db inst) ++ [N + 1]).Perm (List.range' 1 (N + 1))
        have hr := List.range'_append 1 N 1 1
        rw [show 1 + 1 * N = N + 1 by omega, List.range'_one,
            show 1 + N = N + 1 by omega] at hr
        rw [← hr]
        exact (hinv inst).append (List.Perm.refl _)
      · rw [show (List.filter (fun p => p.instance_id == i)
              [(⟨pid, m, inst, maxPinOrder db inst + 1⟩ : Pin)]) = [] by
            simp [hi],
          List.map_nil, List.append_nil]
        exact hinv i

/-- One `unpin_model` call preserves key uniqueness and per-instance order
density. -/
theorem unpin_preserves (db : List Pin) (m inst : String)
    (hkeys : KeysNodup db)
    (hinv : ∀ i, (ordersOf db i).Perm
      (List.range' 1 (ordersOf db i).length)) :
    KeysNodup (unpin_model db m inst).1 ∧
    ∀ i, (ordersOf (unpin_model db m inst).1 i).Perm
      (List.range' 1 (ordersOf (unpin_model db m inst).1 i).length) := by
  rw [unpin_model]
  cases hf : findPin db m inst with
  | none => exact ⟨hkeys, hinv⟩
  | some p =>
    rw [findPin] at hf
    have hpmem : p ∈ db := List.mem_of_find?_eq_some hf
    have hpprop := List.find?_some hf
    have hpm : p.model_name = m := by
      have := (Bool.and_eq_true _ _).mp hpprop
      simpa using this.1
    have hpi : p.instance_id = inst := by
      have := (Bool.and_eq_true _ _).mp hpprop
      simpa using this.2
    obtain ⟨l₁, l₂, rfl⟩ := List.append_of_mem hpmem
    have hkeyother : ∀ q ∈ l₁ ++ l₂,
        ¬(q.model_name = m ∧ q.instance_id = inst) := by
      intro q hq hcon
      rw [KeysNodup, List.map_append, List.map_cons, List.nodup_append] at hkeys
      obtain ⟨hn1, hn2, hdisj⟩ := hkeys
      have hkeyq : (q.model_name, q.instance_id) = (m, inst) := by
        rw [hcon.1, hcon.2]
      have hkeyp : (p.model_name, p.instance_id) = (m, inst) := by
        rw [hpm, hpi]
      rcases List.mem_append.mp hq with h1 | h2
      · apply hdisj (List.mem_map_of_mem _ h1)
        rw [hkeyq, ← hkeyp]
        exact List.mem_cons_self _ _
      · apply (List.nodup_cons.mp hn2).1
        rw [hkeyp, ← hkeyq]
        exact List.mem_map_of_mem _ h2
    have hself : ∀ (l : List Pin),
        (∀ q ∈ l, ¬(q.model_name = m ∧ q.instance_id = inst)) →
        l.filter (fun q => !(q.model_name == m && q.instance_id == inst)) = l := by
      intro l hl
      apply List.filter_eq_self.mpr
      intro q hq
      by_cases h1 : q.model_name = m
      · have h2 : ¬ q.instance_id = inst := fun h2 => hl q hq ⟨h1, h2⟩
        simp [h2]
      · simp [h1]
    have hdb1 : (l₁ ++ p :: l₂).filter
        (fun q => !(q.model_name == m && q.instance_id == inst)) = l₁ ++ l₂ := by
      rw [List.filter_append, List.filter_cons]
      rw [show (!(p.model_name == m && p.instance_id == inst)) = false by
        simp [hpm, hpi]]
      rw [hself l₁ (fun q hq => hkeyother q (List.mem_append_left _ hq)),
          hself l₂ (fun q hq => hkeyother q (List.mem_append_right _ hq))]
      rfl
    have hordapp : ∀ (la lb : List Pin) (i : String),
        ordersOf (la ++ lb) i = ordersOf la i ++ ordersOf lb i := by
      intro la lb i
      rw [ordersOf, List.filter_append, List.map_append]
      rfl
    have hkeyF : ∀ q : Pin,
        ((if q.instance_id == inst && decide (p.pin_order < q.pin_order)
          then { q with pin_order := q.pin_order - 1 } else q).model_name,
         (if q.instance_id == inst && decide (p.pin_order < q.pin_order)
          then { q with pin_order := q.pin_order - 1 } else q).instance_id)
        = (q.model_name, q.instance_id) := by
      intro q
      by_cases hc : (q.instance_id == inst && decide (p.pin_order < q.pin_order)) = true
      · rw [if_pos hc]
      · rw [if_neg hc]
    rw [hdb1]
    constructor
    · rw [KeysNodup, List.map_map]
      have hcg : List.map ((fun p : Pin => (p.model_name, p.instance_id)) ∘ fun q =>
          if q.instance_id == inst && decide (p.pin_order < q.pin_order)
          then { q with pin_order := q.pin_order - 1 } else q) (l₁ ++ l₂)
          = List.map (fun q : Pin => (q.model_name, q.instance_id)) (l₁ ++ l₂) :=
        List.map_congr_left (fun q _ => hkeyF q)
      rw [hcg]
      have hsub : ((l₁ ++ l₂).map (fun p => (p.model_name, p.instance_id))).Sublist
          ((l₁ ++ p :: l₂).map (fun p => (p.model_name, p.instance_id))) := by
        apply List.Sublist.map
        exact List.Sublist.append_left (List.Sublist.cons p (List.Sublist.refl _)) _
      exact hsub.nodup hkeys
    · intro i
      have hfiltmap : ((l₁ ++ l₂).map (fun q =>
          if q.instance_id == inst && decide (p.pin_order < q.pin_order)
          then { q with pin_order := q.pin_order - 1 } else q)).filter
            (fun q => q.instance_id == i)
          = ((l₁ ++ l₂).filter (fun q => q.instance_id == i)).map (fun q =>
          if q.instance_id == inst && decide (p.pin_order < q.pin_order)
          then { q with pin_order := q.pin_order - 1 } else q) := by
        rw [List.filter_map]
        congr 1
        apply List.filter_congr
        intro q _
        show ((if q.instance_id == inst && decide (p.pin_order < q.pin_order)
          then { q with pin_order := q.pin_order - 1 } else q).instance_id == i)
          = (q.instance_id == i)
        by_cases hc : (q.instance_id == inst && decide (p.pin_order < q.pin_order)) = true
        · rw [if_pos hc]
        · rw [if_neg hc]
      rw [ordersOf, hfiltmap, List.map_map]
      by_cases hi : i = inst
      · subst hi
        have hmapg : ∀ q ∈ (l₁ ++ l₂).filter (fun q => q.instance_id == i),
            (Pin.pin_order ∘ (fun q =>
              if q.instance_id == i && decide (p.pin_order < q.pin_order)
              then { q with pin_order := q.pin_order - 1 } else q)) q
            = ((fun x => if p.pin_order < x then x - 1 else x) ∘ Pin.pin_order) q := by
          intro q hq
          have hqi : (q.instance_id == i) = true := (List.mem_filter.mp hq).2
          show (if q.instance_id == i && decide (p.pin_order < q.pin_order)
              then { q with pin_order := q.pin_order - 1 } else q).pin_order
            = if p.pin_order < q.pin_order then q.pin_order - 1 else q.pin_order
          rw [hqi, Bool.true_and]
          by_cases hlt : p.pin_order < q.pin_order
          · rw [if_pos (by simpa using hlt), if_pos hlt]
          · rw [if_neg (by simpa using hlt), if_neg hlt]
        rw [List.map_congr_left hmapg, ← List.map_map,
            show List.map Pin.pin_order
              ((l₁ ++ l₂).filter (fun q => q.instance_id == i))
              = ordersOf (l₁ ++ l₂) i from rfl]
        have hordsplit : ordersOf (l₁ ++ p :: l₂) i
            = ordersOf l₁ i ++ p.pin_order :: ordersOf l₂ i := by
          rw [hordapp]
          congr 1
          rw [ordersOf, List.filter_cons,
              if_pos (show (p.instance_id == i) = true by simp [hpi]),
              List.map_cons]
          rfl
        have hperm1 : (ordersOf (l₁ ++ p :: l₂) i).Perm
            (p.pin_order :: ordersOf (l₁ ++ l₂) i) := by
          rw [hordsplit, hordapp]
          exact List.perm_middle
        set N := (ordersOf (l₁ ++ p :: l₂) i).length with hN
        have hperm2 : (p.pin_order :: ordersOf (l₁ ++ l₂) i).Perm
            (List.range' 1 N) := hperm1.symm.trans (hinv i)
        have hkmem : p.pin_order ∈ List.range' 1 N ∧
            (ordersOf (l₁ ++ l₂) i).Perm ((List.range' 1 N).erase p.pin_order) :=
          List.cons_perm_iff_perm_erase.mp hperm2
        have hkb : 1 ≤ p.pin_order ∧ p.pin_order ≤ N := by
          have := hkmem.1
          rw [List.mem_range'_1] at this
          omega
        have hmain : ((ordersOf (l₁ ++ l₂) i).map
            (fun x => if p.pin_order < x then x - 1 else x)).Perm
            (List.range' 1 (N - 1)) := by
          rw [← shift_erase_range N p.pin_order hkb.1 hkb.2]
          exact hkmem.2.map _
        have hlen : ((ordersOf (l₁ ++ l₂) i).map
            (fun x => if p.pin_order < x then x - 1 else x)).length = N - 1 := by
          rw [List.length_map, hkmem.2.length_eq,
              List.length_erase_of_mem hkmem.1, List.length_range']
        show ((ordersOf (l₁ ++ l₂) i).map
            (fun x => if p.pin_order < x then x - 1 else x)).Perm
          (List.range' 1 ((ordersOf (l₁ ++ l₂) i).map
            (fun x => if p.pin_order < x then x - 1 else x)).length)
        rw [hlen]
        exact hmain
      · have hmapid : ∀ q ∈ (l₁ ++ l₂).filter (fun q => q.instance_id == i),
            (Pin.pin_order ∘ (fun q =>
              if q.instance_id == inst && decide (p.pin_order < q.pin_order)
              then { q with pin_order := q.pin_order - 1 } else q)) q
            = Pin.pin_order q := by
          intro q hq
          have hqi : (q.instance_id == i) = true := (List.mem_filter.mp hq).2
          have hqinst : (q.instance_id == inst) = false := by
            have : q.instance_id = i := by simpa using hqi
            simp [this, hi]
          show (if q.instance_id == inst && decide (p.pin_order < q.pin_order)
              then { q with pin_order := q.pin_order - 1 } else q).pin_order
            = q.pin_order
          rw [hqinst, Bool.false_and, if_neg (by simp)]
        rw [List.map_congr_left hmapid,
            show List.map Pin.pin_order
              ((l₁ ++ l₂).filter (fun q => q.instance_id == i))
              = ordersOf (l₁ ++ l₂) i from rfl]
        have hsame : ordersOf (l₁ ++ p :: l₂) i = ordersOf (l₁ ++ l₂) i := by
          rw [hordapp, hordapp]
          congr 1
          rw [ordersOf, List.filter_cons,
              if_neg (show ¬ (p.instance_id == i) = true by
                simp [hpi]
                exact fun hc => hi hc.symm)]
          rfl
        rw [← hsame]
        exact hinv i

/-- Every reachable `model_pin` state has unique `(model, instance)` keys
and dense per-instance pin orders. -/
theorem model_pin_invariant (db : List Pin) (h : Reachable db) :
    KeysNodup db ∧ ∀ i, (ordersOf db i).Perm
      (List.range' 1 (ordersOf db i).length) := by
  induction h with
  | init => exact ⟨List.nodup_nil, fun i => by simp [ordersOf]⟩
  | pin db pid m inst hr ih => exact pin_preserves db pid m inst ih.1 ih.2
  | unpin db m inst hr ih => exact unpin_preserves db m inst ih.1 ih.2

/-- C1: starting from an empty `model_pin` table, after any sequence of
`pin_model` and `unpin_model` operations each instance's `pin_order` values
are exactly the dense set `1..N` — a permutation of `1..N` where `N` is the
instance's row count. -/
theorem model_pin_orders_dense (db : List Pin) (h : Reachable db)
    (inst : String) :
    (ordersOf db inst).Perm (List.range' 1 (ordersOf db inst).length) :=
  (model_pin_invariant db h).2 inst

/-- C1 witness: pinning three models yields orders `[1, 2, 3]`; unpinning
the middle one renumbers the remaining two to `[1, 2]` preserving their
relative order, and the density theorem applies to the resulting state. -/
theorem model_pin_orders_dense_witness :
    let db1 := (pin_model [] "p1" "model1" "inst1").1
    let db2 := (pin_model db1 "p2" "model2" "inst1").1
    let db3 := (pin_model db2 "p3" "model3" "inst1").1
    let db4 := (unpin_model db3 "model2" "inst1").1
    Reachable db4 ∧
    ordersOf db3 "inst1" = [1, 2, 3] ∧
    ordersOf db4 "inst1" = [1, 2] ∧
    (ordersOf db4 "inst1").Perm (List.range' 1 (ordersOf db4 "inst1").length) := by
  intro db1 db2 db3 db4
  have h4 : Reachable db4 :=
    Reachable.unpin _ _ _ (Reachable.pin _ _ _ _ (Reachable.pin _ _ _ _
      (Reachable.pin _ _ _ _ Reachable.init)))
  exact ⟨h4, by decide, by decide, model_pin_orders_dense db4 h4 "inst1"⟩

/-- C4 witness: with TTL 300, setting at time 0 and reading at time 300
returns the value; reading at time 301 evicts and misses. -/
theorem model_cache_ttl_witness :
    let c : ModelInfoCache Nat := ⟨[], 300⟩
    ((300 : Int) - 0 ≤ c.ttl_seconds ∧
      (c.set "i1:m1" 7 0).get "i1:m1" 300 = (some 7, c.set "i1:m1" 7 0)) ∧
    ((301 : Int) - 0 > c.ttl_seconds ∧
      ((c.set "i1:m1" 7 0).get "i1:m1" 301).1 = none) := by
  intro c
  refine ⟨⟨by decide, (model_cache_ttl c "i1:m1" 7 0 300).2.1 (by decide)⟩,
          ⟨by decide, ((model_cache_ttl c "i1:m1" 7 0 301).2.2 (by decide)).1⟩⟩

end Alpaca
